import Mathlib

/-!
# Vulture text rendering (`win/vulture/vulture_txt.cpp`)

A shallow embedding of the font registry, the glyph metrics adapter, the
single-line renderer and the word-wrap loop of `vulture_txt.cpp`, followed by
theorems about them.

Conventions of the embedding

* `std::string` is a `List Char`; `size_t` is a `Nat` taken modulo `2^64`
  wherever the source does arithmetic on it.
* Arithmetic on `int` in the drawing positions (`x + 1`, `y + 1`, `y - 1`,
  `y + lineno * text_height`, `lineno++`) is reduced to 32 bits, and the fields
  of an `SDL_Rect` are converted to `Sint16` and `Uint16`.
* The global `vulture_fonts` pointer and the initialisation flag of SDL_ttf
  form the `Registry`; a read through the `NULL` table or outside the
  calloc-ed array is a `Fault`, so every operation returns `Except Fault _`.
* SDL_ttf and SDL are external: what they answer is a field of `Env` or an
  explicit argument (the outcome of `TTF_Init`, the handle returned by
  `TTF_OpenFontIndex`).
* The destination surface records the blits made on it, and the wrap loop
  additionally records the calls it makes to `vulture_put_text_shadow`.
-/

namespace Vulture

/-! ## Data model -/

/-- Value of the macro `VULTURE_MAX_FONTS`. -/
def VULTURE_MAX_FONTS : Int := 2

/-- Ways in which the modelled machine leaves the defined behaviour of the
program, plus the exhaustion of the iteration budget of a loop embedding. -/
inductive Fault where
  /-- A read or write through `vulture_fonts` while it is `NULL`. -/
  | nullDeref
  /-- An index outside the allocated slot array. -/
  | outOfBounds
  /-- The exception `std::out_of_range` of `std::string::substr`. -/
  | outOfRange
  /-- The iteration budget given to a loop was used up. -/
  | fuel
  deriving DecidableEq, Repr

/-- An open font of the rasterizer (`TTF_Font *`), identified by its handle. -/
structure TTF_Font where
  handle : Nat
  deriving DecidableEq, Repr

/-- The C struct `vulture_font`: a font pointer (possibly `NULL`) and the
`char` field `lineheight`, kept as the integer value of that char. -/
structure vulture_font where
  fontptr : Option TTF_Font
  lineheight : Int
  deriving DecidableEq, Repr

/-- Process-wide state: the result of `TTF_WasInit()`, the global pointer
`vulture_fonts` (`none` is `NULL`) and, as a ghost log, the handles passed to
`TTF_CloseFont` so far. -/
structure Registry where
  wasInit : Bool
  vulture_fonts : Option (List vulture_font)
  closed : List TTF_Font
  deriving DecidableEq, Repr

/-- The state of a process that never called into the module. -/
def Registry.initial : Registry :=
  { wasInit := false, vulture_fonts := none, closed := [] }

/-- An `SDL_Color` as filled in by `vulture_put_text` (four `Uint8`). -/
structure SDL_Color where
  r : Nat
  g : Nat
  b : Nat
  unused : Nat
  deriving DecidableEq, Repr

/-- An `SDL_Rect` of SDL 1.2, the version whose `SDL_Color` has the field
`unused` that `vulture_put_text` sets: `x` and `y` hold `Sint16` values, `w` and
`h` hold `Uint16` values. -/
structure SDL_Rect where
  x : Int
  y : Int
  w : Int
  h : Int
  deriving DecidableEq, Repr

/-- The channel masks and shifts of a destination surface. -/
structure SDL_PixelFormat where
  Rmask : Nat
  Gmask : Nat
  Bmask : Nat
  Rshift : Nat
  Gshift : Nat
  Bshift : Nat
  deriving DecidableEq, Repr

/-- The temporary surface returned by `TTF_RenderText_Blended`: its size and
what was rendered into it. -/
structure TextSurface where
  w : Int
  h : Int
  font : TTF_Font
  text : List Char
  color : SDL_Color
  deriving DecidableEq, Repr

/-- One `SDL_BlitSurface` onto the destination. -/
structure Blit where
  src : TextSurface
  dstrect : SDL_Rect
  deriving DecidableEq, Repr

/-- The destination surface: its pixel format and the blits made on it, oldest
first. -/
structure SDL_Surface where
  format : SDL_PixelFormat
  blits : List Blit
  deriving DecidableEq, Repr

/-- The external libraries and the platform, as far as the module consults
them.  `charSigned` tells whether plain `char` is signed; `FontAscent` is
`TTF_FontAscent`; `SizeTextW` and `SizeTextH` are the width and the height that
`TTF_SizeText` stores (the variable keeps its initial `0` only through these
functions answering `0`); `RenderText_Blended` is `none` when the rasterizer
returns `NULL`. -/
structure Env where
  charSigned : Bool
  FontAscent : TTF_Font → Int
  SizeTextW : TTF_Font → List Char → Int
  SizeTextH : TTF_Font → List Char → Int
  RenderText_Blended : TTF_Font → List Char → SDL_Color → Option TextSurface

/-- Conversion of an `int` to `char` (8 bits, two-s complement when signed). -/
def toChar (signed : Bool) (v : Int) : Int :=
  if signed then (v + 128) % 256 - 128 else v % 256

/-- Conversion to `Uint8`. -/
def toUint8 (v : Nat) : Nat := v % 256

/-- Reduction of an integer to the range of a 32-bit C `int` (two-s
complement). -/
def wrapInt32 (v : Int) : Int := (v + 2147483648) % 4294967296 - 2147483648

/-- Whether an integer is a value of the C type `int`. -/
def IsInt (v : Int) : Prop := -2147483648 ≤ v ∧ v ≤ 2147483647

/-- The C expression `a + b` on `int` operands. -/
def intAdd (a b : Int) : Int := wrapInt32 (a + b)

/-- The C expression `a - b` on `int` operands. -/
def intSub (a b : Int) : Int := wrapInt32 (a - b)

/-- The C expression `a * b` on `int` operands. -/
def intMul (a b : Int) : Int := wrapInt32 (a * b)

/-- Conversion of an `int` to `Sint16`. -/
def toSint16 (v : Int) : Int := (v + 32768) % 65536 - 32768

/-- Conversion of an `int` to `Uint16`. -/
def toUint16 (v : Int) : Int := v % 65536

/-! ## Slot table access -/

/-- The read `vulture_fonts[font_id]`. -/
def slotAt (st : Registry) (font_id : Int) : Except Fault vulture_font :=
  match st.vulture_fonts with
  | none => .error .nullDeref
  | some table =>
    if 0 ≤ font_id ∧ font_id < table.length then
      match table.get? font_id.toNat with
      | some slot => .ok slot
      | none => .error .outOfBounds
    else .error .outOfBounds

/-- The write `vulture_fonts[font_id] = slot`. -/
def setSlot (st : Registry) (font_id : Int) (slot : vulture_font) : Except Fault Registry :=
  match st.vulture_fonts with
  | none => .error .nullDeref
  | some table =>
    if 0 ≤ font_id ∧ font_id < table.length then
      .ok { st with vulture_fonts := some (table.set font_id.toNat slot) }
    else .error .outOfBounds

/-- The array `calloc(VULTURE_MAX_FONTS, sizeof(struct vulture_font))`: every
pointer `NULL`, every `lineheight` zero. -/
def callocFonts : List vulture_font :=
  List.replicate VULTURE_MAX_FONTS.toNat { fontptr := none, lineheight := 0 }

/-! ## Font registry -/

/-- The block `if (!vulture_fonts) vulture_fonts = calloc(...)` together with
the effect of a successful `TTF_Init()`, run when `TTF_WasInit()` is false: the
library is initialised and the table is allocated if it was absent.  (The
allocation itself is taken to succeed.) -/
def afterInit (st : Registry) : Registry :=
  if !st.wasInit then
    { st with
      wasInit := true
      vulture_fonts :=
        match st.vulture_fonts with
        | none => some callocFonts
        | some table => some table }
  else st

/-- The function `vulture_load_font`.  `initOk` is whether `TTF_Init()` would
succeed, `newfont` what `TTF_OpenFontIndex(ttf_filename, pointsize, fontindex)`
would return.  The boolean of the result is the returned `TRUE`/`FALSE`.
The `int` sum `TTF_FontAscent(newfont) + 2` is converted to `char` at once; its
reduction to 32 bits would not change the stored value (`toChar_intAdd`). -/
def vulture_load_font (env : Env) (st : Registry) (font_id : Int) (initOk : Bool)
    (newfont : Option TTF_Font) : Except Fault (Registry × Bool) :=
  if !st.wasInit && !initOk then
    .ok (st, false)
  else
    let st1 : Registry := afterInit st
    if font_id ≥ VULTURE_MAX_FONTS then
      .ok (st1, false)
    else
      match newfont with
      | none => .ok (st1, false)
      | some f => do
        let slot ← slotAt st1 font_id
        let st2 : Registry :=
          match slot.fontptr with
          | some old => { st1 with closed := st1.closed ++ [old] }
          | none => st1
        let st3 ← setSlot st2 font_id { slot with fontptr := some f }
        let slot3 ← slotAt st3 font_id
        let st4 ← setSlot st3 font_id
          { slot3 with lineheight := toChar env.charSigned (env.FontAscent f + 2) }
        pure (st4, true)

/-- The function `vulture_get_lineheight`. -/
def vulture_get_lineheight (st : Registry) (font_id : Int) : Except Fault Int :=
  if font_id < VULTURE_MAX_FONTS then do
    let slot ← slotAt st font_id
    match slot.fontptr with
    | some _ => pure slot.lineheight
    | none => pure 0
  else pure 0

/-- One turn of the loop of `vulture_free_fonts`. -/
def free_slot (st : Registry) (font_id : Int) : Except Fault Registry := do
  let slot ← slotAt st font_id
  let st1 : Registry :=
    match slot.fontptr with
    | some f => { st with closed := st.closed ++ [f] }
    | none => st
  setSlot st1 font_id { slot with fontptr := none }

/-- The `for` loop of `vulture_free_fonts`, from `font_id` on, with `n` turns
left. -/
def free_loop : Nat → Int → Registry → Except Fault Registry
  | 0, _, st => .ok st
  | n + 1, font_id, st => do
    let st1 ← free_slot st font_id
    free_loop n (font_id + 1) st1

/-- The function `vulture_free_fonts`: the loop over the slots, then
`free(vulture_fonts)`, `vulture_fonts = NULL` and `TTF_Quit()`. -/
def vulture_free_fonts (st : Registry) : Except Fault Registry := do
  let st1 ← free_loop VULTURE_MAX_FONTS.toNat 0 st
  pure { st1 with vulture_fonts := none, wasInit := false }

/-! ## Glyph metrics adapter -/

/-- Body of `vulture_text_length` once the slot has been read. -/
def text_length_of (env : Env) (slot : vulture_font) (str : List Char) : Int :=
  match slot.fontptr with
  | none => 0
  | some f => if str.isEmpty then 0 else env.SizeTextW f str

/-- Body of `vulture_text_height` once the slot has been read. -/
def text_height_of (env : Env) (slot : vulture_font) (str : List Char) : Int :=
  match slot.fontptr with
  | none => 0
  | some f => if str.isEmpty then 0 else env.SizeTextH f str

/-- The function `vulture_text_length`: the slot is read first, without any
test on `font_id`. -/
def vulture_text_length (env : Env) (st : Registry) (font_id : Int) (str : List Char) :
    Except Fault Int := do
  let slot ← slotAt st font_id
  pure (text_length_of env slot str)

/-- The function `vulture_text_height`. -/
def vulture_text_height (env : Env) (st : Registry) (font_id : Int) (str : List Char) :
    Except Fault Int := do
  let slot ← slotAt st font_id
  pure (text_height_of env slot str)

/-! ## Single-line renderer -/

/-- The classification `isprint` of `<ctype.h>` in the C locale: the ASCII
codes `0x20` to `0x7E`. -/
def isprint (c : Char) : Bool :=
  decide (0x20 ≤ c.toNat) && decide (c.toNat ≤ 0x7E)

/-- The sanitising `for` loop of `vulture_put_text`, with `n` turns left, at
index `i`, on the copy `cleaned_str`. -/
def sanitizeLoop : Nat → Nat → List Char → List Char
  | 0, _, cleaned_str => cleaned_str
  | n + 1, i, cleaned_str =>
    sanitizeLoop n (i + 1)
      (if !isprint (cleaned_str.getD i ' ') then cleaned_str.set i ' ' else cleaned_str)

/-- The sanitisation step of `vulture_put_text`: `cleaned_str = str`, then the
loop over `i = 0 .. cleaned_str.length() - 1`. -/
def sanitize (str : List Char) : List Char :=
  sanitizeLoop str.length 0 str

/-- The extraction of one channel, `(color & mask) >> shift`, stored into a
`Uint8`. -/
def channel (color mask shift : Nat) : Nat :=
  toUint8 ((color &&& mask) >>> shift)

/-- The function `vulture_put_text`; the result carries the destination
surface after the call and the returned `TRUE`/`FALSE`.  The assignments to
the fields of `dstrect` convert the `int` values `x`, `y - 1`, `textsurface->w`
and `textsurface->h` to the field types.  The release of the temporary surface
leaves no trace in the model. -/
def vulture_put_text (env : Env) (st : Registry) (font_id : Int) (str : List Char)
    (dest : SDL_Surface) (x y : Int) (color : Nat) : Except Fault (SDL_Surface × Bool) :=
  if font_id ≥ VULTURE_MAX_FONTS then
    .ok (dest, false)
  else do
    let slot ← slotAt st font_id
    match slot.fontptr with
    | none => pure (dest, false)
    | some f =>
      if str.isEmpty then pure (dest, false)
      else
        let cleaned_str := sanitize str
        let fontcolor : SDL_Color :=
          { r := channel color dest.format.Rmask dest.format.Rshift
            g := channel color dest.format.Gmask dest.format.Gshift
            b := channel color dest.format.Bmask dest.format.Bshift
            unused := 0 }
        match env.RenderText_Blended f cleaned_str fontcolor with
        | none => pure (dest, false)
        | some textsurface =>
          let dstrect : SDL_Rect :=
            { x := toSint16 x, y := toSint16 (intSub y 1),
              w := toUint16 textsurface.w, h := toUint16 textsurface.h }
          pure ({ dest with blits := dest.blits ++ [{ src := textsurface, dstrect := dstrect }] },
                true)

/-- The function `vulture_put_text_shadow`: the shadow first, its status
dropped, then the text. -/
def vulture_put_text_shadow (env : Env) (st : Registry) (font_id : Int) (str : List Char)
    (dest : SDL_Surface) (x y : Int) (textcolor shadowcolor : Nat) :
    Except Fault (SDL_Surface × Bool) := do
  let r ← vulture_put_text env st font_id str dest (intAdd x 1) (intAdd y 1) shadowcolor
  vulture_put_text env st font_id str r.1 x y textcolor

/-! ## Word-wrap loop -/

/-- Number of values of a `size_t`. -/
def SIZE_MOD : Nat := 2 ^ 64

/-- The constant `std::string::npos`, the largest `size_t`. -/
def npos : Nat := SIZE_MOD - 1

/-- The expression `s.length() - 1` in `size_t` arithmetic. -/
def lengthMinusOne (s : List Char) : Nat :=
  (s.length + SIZE_MOD - 1) % SIZE_MOD

/-- Membership in the separator set `" \t\n"` of the wrap loop. -/
def isDelim (c : Char) : Bool :=
  c == ' ' || c == '\t' || c == '\n'

/-- Index of the last separator of `s`, if there is one. -/
def lastDelim : List Char → Option Nat
  | [] => none
  | c :: cs =>
    match lastDelim cs with
    | some i => some (i + 1)
    | none => if isDelim c then some 0 else none

/-- The call `str_copy.find_last_of(" \t\n")`: an index, or `npos`. -/
def find_last_of (s : List Char) : Nat :=
  match lastDelim s with
  | some i => i
  | none => npos

/-- A call of `vulture_put_text_shadow` made by the wrap loop (ghost record). -/
structure ShadowCall where
  font_id : Int
  str : List Char
  x : Int
  y : Int
  textcolor : Nat
  shadowcolor : Nat
  deriving DecidableEq, Repr

/-- The inner `while (txtlen > maxlen)` loop of `vulture_put_text_multiline`,
with `n` turns left.  The result is `(str_copy, endpos, lastfit)` at the exit of
the loop.  `str_copy.erase(endpos++)` keeps the characters before the index
found and then increments `endpos` as a `size_t`. -/
def innerLoop (env : Env) (st : Registry) (font_id : Int) (maxlen : Int) :
    Nat → List Char → Nat → Bool → Int → Except Fault (List Char × Nat × Bool)
  | 0, str_copy, endpos, lastfit, txtlen =>
    if txtlen > maxlen then .error .fuel else .ok (str_copy, endpos, lastfit)
  | n + 1, str_copy, endpos, lastfit, txtlen =>
    if txtlen > maxlen then
      let endpos1 := find_last_of str_copy
      if endpos1 = npos then
        .ok (str_copy, lengthMinusOne str_copy, true)
      else do
        let str_copy1 := str_copy.take endpos1
        let endpos2 := (endpos1 + 1) % SIZE_MOD
        let txtlen1 ← vulture_text_length env st font_id str_copy1
        innerLoop env st font_id maxlen n str_copy1 endpos2 false txtlen1
    else .ok (str_copy, endpos, lastfit)

/-- The body of the outer loop up to the draw: from the `startpos` and `endpos`
left by the previous turn to `(startpos, endpos, str_copy, lastfit)`. -/
def loopBody (env : Env) (st : Registry) (font_id : Int) (str : List Char) (maxlen : Int)
    (startpos endpos : Nat) : Except Fault (Nat × Nat × List Char × Bool) :=
  let startpos1 := (startpos + endpos) % SIZE_MOD
  if startpos1 > str.length then .error .outOfRange
  else do
    let str_copy := str.drop startpos1
    let endpos1 := lengthMinusOne str_copy
    let txtlen ← vulture_text_length env st font_id str_copy
    let r ← innerLoop env st font_id maxlen (str_copy.length + 1) str_copy endpos1 true txtlen
    pure (startpos1, r.2.1, r.1, r.2.2)

/-- The outer `while (!lastfit)` loop of `vulture_put_text_multiline`, with `n`
turns left.  The result is the destination surface and the calls made to
`vulture_put_text_shadow`, in order.  The expressions `y + lineno * text_height`
and `lineno++` are computed in `int`. -/
def outerLoop (env : Env) (st : Registry) (font_id : Int) (str : List Char) (x y : Int)
    (color shadowcolor : Nat) (maxlen text_height : Int) :
    Nat → Nat → Nat → Int → SDL_Surface → List ShadowCall →
      Except Fault (SDL_Surface × List ShadowCall)
  | 0, _, _, _, _, _ => .error .fuel
  | n + 1, startpos, endpos, lineno, dest, calls => do
    let b ← loopBody env st font_id str maxlen startpos endpos
    let yline := intAdd y (intMul lineno text_height)
    let drawn ← vulture_put_text_shadow env st font_id b.2.2.1 dest x yline color shadowcolor
    let calls1 := calls ++ [{ font_id := font_id, str := b.2.2.1, x := x, y := yline,
                              textcolor := color, shadowcolor := shadowcolor }]
    if b.2.2.2 then pure (drawn.1, calls1)
    else
      outerLoop env st font_id str x y color shadowcolor maxlen text_height n b.1 b.2.1
        (intAdd lineno 1) drawn.1 calls1

/-- The function `vulture_put_text_multiline`.  The outer loop gets one turn
per character of `str` plus one. -/
def vulture_put_text_multiline (env : Env) (st : Registry) (font_id : Int) (str : List Char)
    (dest : SDL_Surface) (x y : Int) (color shadowcolor : Nat) (maxlen : Int) :
    Except Fault (SDL_Surface × List ShadowCall) := do
  let text_height ← vulture_text_height env st font_id str
  outerLoop env st font_id str x y color shadowcolor maxlen text_height
    (str.length + 1) 0 0 0 dest []

/-- The texts of the lines drawn by a run of the wrap loop, in order. -/
def linesOf (r : Except Fault (SDL_Surface × List ShadowCall)) : Option (List (List Char)) :=
  match r with
  | .ok p => some (p.2.map (fun c => c.str))
  | .error _ => none

/-! ## Notions of the specification -/

/-- The whitespace-delimited tokens of a text, left to right, with `cur` the
reversed token being read: the maximal non-empty runs of characters other than
space, tab and newline. -/
def tokensAux : List Char → List Char → List (List Char)
  | cur, [] => if cur.isEmpty then [] else [cur.reverse]
  | cur, c :: cs =>
    if isDelim c then
      (if cur.isEmpty then tokensAux [] cs else cur.reverse :: tokensAux [] cs)
    else tokensAux (c :: cur) cs

/-- The whitespace-delimited tokens of a text. -/
def tokens (s : List Char) : List (List Char) := tokensAux [] s

/-- Whether a text measures at most `maxlen` under `vulture_text_length`. -/
def fits (env : Env) (st : Registry) (font_id : Int) (maxlen : Int) (s : List Char) : Bool :=
  match vulture_text_length env st font_id s with
  | .ok w => decide (w ≤ maxlen)
  | .error _ => false

/-- Number of separator characters (space, tab, newline) of a text. -/
def countDelims (s : List Char) : Nat := s.countP isDelim

/-- Number of separators of a text that do not directly follow a token
character, where `inTok` tells whether the character before the text is a
token character. -/
def emptyFieldsAux : Bool → List Char → Nat
  | _, [] => 0
  | inTok, c :: cs =>
    if isDelim c then (if inTok then 0 else 1) + emptyFieldsAux false cs
    else emptyFieldsAux true cs

/-- Number of separators of a text that stand first or directly after another
separator. -/
def emptyFields (s : List Char) : Nat := emptyFieldsAux false s

/-- Relation between the state at the entry of the inner loop (candidate `C`,
`endpos` `e`, `lastfit` `lf`) and the state at its exit, for the measure `L`:
the loop was not entered, or it cut `C` at a separator and the cut fits, or it
stopped on a candidate without separator that does not fit. -/
def InnerPost (L : List Char → Int) (maxlen : Int) (C : List Char) (e : Nat) (lf : Bool)
    (C1 : List Char) (e1 : Nat) (lf1 : Bool) : Prop :=
  (L C ≤ maxlen ∧ C1 = C ∧ e1 = e ∧ lf1 = lf) ∨
  (maxlen < L C ∧ L C1 ≤ maxlen ∧ lf1 = false ∧ e1 = C1.length + 1 ∧
    ∃ c rest, C = C1 ++ c :: rest ∧ isDelim c = true) ∨
  (maxlen < L C ∧ maxlen < L C1 ∧ lf1 = true ∧ e1 = lengthMinusOne C1 ∧
    (∀ x ∈ C1, isDelim x = false) ∧
    (C1 = C ∨ ∃ c rest, C = C1 ++ c :: rest ∧ isDelim c = true))

/-- The lines the wrap loop draws from the remaining text `R`, for the measure
`L` and the budget `maxlen`. -/
inductive Wrapped (L : List Char → Int) (maxlen : Int) : List Char → List (List Char) → Prop
  /-- The remaining text fits: it is the last line. -/
  | whole (R : List Char) : L R ≤ maxlen → Wrapped L maxlen R [R]
  /-- The candidate `C` has no separator and does not fit: it is drawn and the
  loop ends, whatever follows `C` in `R`. -/
  | stuck (R C : List Char) : maxlen < L R → maxlen < L C → (∀ x ∈ C, isDelim x = false) →
      (C = R ∨ ∃ c rest, R = C ++ c :: rest ∧ isDelim c = true) → Wrapped L maxlen R [C]
  /-- The text is cut before the separator `c`; the loop goes on with `rest`. -/
  | split (R C : List Char) (c : Char) (rest : List Char) (ls : List (List Char)) :
      maxlen < L R → L C ≤ maxlen → R = C ++ c :: rest → isDelim c = true →
      Wrapped L maxlen rest ls → Wrapped L maxlen R (C :: ls)

/-- The calls of `vulture_put_text_shadow` that draw the lines `ls`, the first
of them with line number `lineno`. -/
def mkCalls (font_id : Int) (x y : Int) (color shadowcolor : Nat) (text_height : Int) :
    Int → List (List Char) → List ShadowCall
  | _, [] => []
  | lineno, l :: ls =>
    { font_id := font_id, str := l, x := x, y := intAdd y (intMul lineno text_height),
      textcolor := color, shadowcolor := shadowcolor } ::
      mkCalls font_id x y color shadowcolor text_height (intAdd lineno 1) ls

/-- The lines joined again, with exactly one space between two consecutive
lines. -/
def joinWithSpace : List (List Char) → List Char
  | [] => []
  | [l] => l
  | l :: ls => l ++ ' ' :: joinWithSpace ls

/-- The slot `k` as the callers of the module see it: an absent table shows
empty slots (no font, line height 0). -/
def slotView (st : Registry) (k : Nat) : vulture_font :=
  match st.vulture_fonts with
  | none => { fontptr := none, lineheight := 0 }
  | some table => table.getD k { fontptr := none, lineheight := 0 }

/-- An environment in which every font has the given ascent, on a platform with
the given signedness of `char`. -/
def ascentEnv (signed : Bool) (ascent : Int) : Env :=
  { charSigned := signed
    FontAscent := fun _ => ascent
    SizeTextW := fun _ s => 8 * s.length + 2
    SizeTextH := fun _ _ => ascent + 4
    RenderText_Blended := fun _ _ _ => none }

/-- The surface after the blit of `textsurface` by `vulture_put_text` called
with the position `(x, y)`. -/
def blitOnto (dest : SDL_Surface) (textsurface : TextSurface) (x y : Int) : SDL_Surface :=
  { dest with
    blits := dest.blits ++
      [{ src := textsurface
         dstrect := { x := toSint16 x, y := toSint16 (intSub y 1),
                      w := toUint16 textsurface.w, h := toUint16 textsurface.h } }] }

/-- The surface obtained by making the calls `cs` of `vulture_put_text_shadow`
one after the other on `dest`. -/
def drawCalls (env : Env) (st : Registry) : List ShadowCall → SDL_Surface →
    Except Fault SDL_Surface
  | [], dest => .ok dest
  | c :: cs, dest => do
    let r ← vulture_put_text_shadow env st c.font_id c.str dest c.x c.y c.textcolor
      c.shadowcolor
    drawCalls env st cs r.1

/-- The registry states reachable from the initial state by calls of
`vulture_load_font` (with any slot id, any outcome of the library
initialisation and of the opening of the font) and of `vulture_free_fonts`
that return. -/
inductive Reachable (env : Env) : Registry → Prop
  /-- The state of a fresh process. -/
  | init : Reachable env Registry.initial
  /-- A call of `vulture_load_font` that returned `TRUE` or `FALSE`. -/
  | load (st st1 : Registry) (font_id : Int) (initOk : Bool) (newfont : Option TTF_Font)
      (b : Bool) : Reachable env st →
      vulture_load_font env st font_id initOk newfont = .ok (st1, b) → Reachable env st1
  /-- A call of `vulture_free_fonts` that returned. -/
  | free (st st1 : Registry) : Reachable env st →
      vulture_free_fonts st = .ok st1 → Reachable env st1

/-- The text `P` is `R` cut immediately before one of its separators. -/
def CutBefore (P R : List Char) : Prop :=
  ∃ c rest, R = P ++ c :: rest ∧ isDelim c = true

/-- The greedy choice of the line `C` from the remaining text `R`, for a test
`fit` of a candidate against the budget: `R` itself when it fits; otherwise the
longest cut of `R` before a separator that fits, when there is one; otherwise
`R` up to its first separator. -/
def Greedy (fit : List Char → Bool) (R C : List Char) : Prop :=
  (fit R = true ∧ C = R) ∨
  (fit R = false ∧ fit C = true ∧ CutBefore C R ∧
    ∀ P, CutBefore P R → fit P = true → P.length ≤ C.length) ∨
  (fit R = false ∧ (∀ P, CutBefore P R → fit P = false) ∧
    C = R.takeWhile (fun c => !isDelim c))

/-- The pairs `(startpos, endpos)` with which a turn of the outer loop of
`vulture_put_text_multiline` can start: the initial `(0, 0)`, and the pair left
by a turn that ended with `lastfit` unset. -/
inductive Cursor (env : Env) (st : Registry) (font_id : Int) (str : List Char)
    (maxlen : Int) : Nat → Nat → Prop
  /-- The first turn. -/
  | start : Cursor env st font_id str maxlen 0 0
  /-- The turn after one that did not end the loop. -/
  | next (sp ep sp1 e1 : Nat) (C1 : List Char) : Cursor env st font_id str maxlen sp ep →
      loopBody env st font_id str maxlen sp ep = .ok (sp1, e1, C1, false) →
      Cursor env st font_id str maxlen sp1 e1

/-- A concrete registry with a font loaded in slot 0. -/
def demoRegistry : Registry :=
  { wasInit := true
    vulture_fonts := some [{ fontptr := some { handle := 1 }, lineheight := 14 },
                           { fontptr := none, lineheight := 0 }]
    closed := [] }

/-- A concrete environment: every text of `n` characters measures `8 n + 2`
pixels wide and 16 high, so that `"quick"` measures 42. -/
def demoEnv : Env :=
  { charSigned := true
    FontAscent := fun _ => 12
    SizeTextW := fun _ s => 8 * s.length + 2
    SizeTextH := fun _ _ => 16
    RenderText_Blended := fun f s c =>
      some { w := 8 * s.length + 2, h := 16, font := f, text := s, color := c } }

/-- The demo environment with a rasterizer that returns no surface for a
colour whose red channel is 128. -/
def noGrayEnv : Env :=
  { demoEnv with
    RenderText_Blended := fun f s c =>
      if c.r = 128 then none
      else some { w := 8 * s.length + 2, h := 16, font := f, text := s, color := c } }

/-- An empty destination surface in the usual RGB layout. -/
def demoSurface : SDL_Surface :=
  { format := { Rmask := 0xFF0000, Gmask := 0xFF00, Bmask := 0xFF,
                Rshift := 16, Gshift := 8, Bshift := 0 }
    blits := [] }


/-! ## Slot access and measurement -/

theorem slotAt_inv {st : Registry} {font_id : Int} {slot : vulture_font}
    (h : slotAt st font_id = .ok slot) :
    ∃ table, st.vulture_fonts = some table ∧ 0 ≤ font_id ∧ font_id < table.length ∧
      table.get? font_id.toNat = some slot := by
  unfold slotAt at h
  cases ht : st.vulture_fonts with
  | none => rw [ht] at h; cases h
  | some table =>
    rw [ht] at h
    refine ⟨table, rfl, ?_⟩
    simp only at h
    by_cases hr : 0 ≤ font_id ∧ font_id < table.length
    · rw [if_pos hr] at h
      cases hg : table.get? font_id.toNat with
      | none => rw [hg] at h; cases h
      | some s0 =>
        rw [hg] at h
        cases h
        exact ⟨hr.1, hr.2, rfl⟩
    · rw [if_neg hr] at h; cases h

theorem vulture_text_length_ok {env : Env} {st : Registry} {font_id : Int} {slot : vulture_font}
    (h : slotAt st font_id = .ok slot) (s : List Char) :
    vulture_text_length env st font_id s = .ok (text_length_of env slot s) := by
  simp only [vulture_text_length, h, bind, Except.bind, pure, Except.pure]

theorem vulture_text_height_ok {env : Env} {st : Registry} {font_id : Int} {slot : vulture_font}
    (h : slotAt st font_id = .ok slot) (s : List Char) :
    vulture_text_height env st font_id s = .ok (text_height_of env slot s) := by
  simp only [vulture_text_height, h, bind, Except.bind, pure, Except.pure]

theorem text_length_of_nil (env : Env) (slot : vulture_font) :
    text_length_of env slot [] = 0 := by
  unfold text_length_of
  cases slot.fontptr <;> simp

theorem vulture_put_text_ok (env : Env) {st : Registry} {font_id : Int} {slot : vulture_font}
    (h : slotAt st font_id = .ok slot) (s : List Char) (dest : SDL_Surface) (x y : Int)
    (color : Nat) : ∃ r, vulture_put_text env st font_id s dest x y color = .ok r := by
  unfold vulture_put_text
  by_cases hid : font_id ≥ VULTURE_MAX_FONTS
  · rw [if_pos hid]; exact ⟨_, rfl⟩
  · rw [if_neg hid]
    simp only [h, bind, Except.bind, pure, Except.pure]
    cases slot.fontptr with
    | none => exact ⟨_, rfl⟩
    | some f =>
      by_cases he : s.isEmpty = true
      · simp only [he, if_true]; exact ⟨_, rfl⟩
      · simp only [he]
        cases env.RenderText_Blended f (sanitize s) _ with
        | none => exact ⟨_, rfl⟩
        | some t => exact ⟨_, rfl⟩

theorem vulture_put_text_shadow_ok (env : Env) {st : Registry} {font_id : Int}
    {slot : vulture_font} (h : slotAt st font_id = .ok slot) (s : List Char)
    (dest : SDL_Surface) (x y : Int) (textcolor shadowcolor : Nat) :
    ∃ r, vulture_put_text_shadow env st font_id s dest x y textcolor shadowcolor = .ok r := by
  unfold vulture_put_text_shadow
  obtain ⟨r1, h1⟩ := vulture_put_text_ok env h s dest (intAdd x 1) (intAdd y 1) shadowcolor
  obtain ⟨r2, h2⟩ := vulture_put_text_ok env h s r1.1 x y textcolor
  exact ⟨r2, by simp only [h1, h2, bind, Except.bind]⟩

/-! ## The separator search -/

theorem lastDelim_none {s : List Char} :
    lastDelim s = none ↔ ∀ c ∈ s, isDelim c = false := by
  induction s with
  | nil => simp [lastDelim]
  | cons c cs ih =>
    unfold lastDelim
    cases hl : lastDelim cs with
    | some i =>
      simp only [false_iff, reduceCtorEq]
      intro hall
      have := ih.mpr (fun x hx => hall x (List.mem_cons_of_mem _ hx))
      rw [hl] at this
      cases this
    | none =>
      have hcs := ih.mp hl
      by_cases hc : isDelim c = true
      · simp only [hc, if_true, false_iff, reduceCtorEq]
        intro hall
        have := hall c (List.mem_cons_self _ _)
        rw [hc] at this
        cases this
      · have hc2 : isDelim c = false := by simpa using hc
        simp only [hc2, Bool.false_eq_true, if_false, true_iff]
        intro x hx
        rcases List.mem_cons.mp hx with rfl | hx
        · exact hc2
        · exact hcs x hx

theorem lastDelim_some {s : List Char} {i : Nat} (h : lastDelim s = some i) :
    i < s.length ∧ ∃ c rest, s = s.take i ++ c :: rest ∧ isDelim c = true ∧
      ∀ x ∈ rest, isDelim x = false := by
  induction s generalizing i with
  | nil => simp [lastDelim] at h
  | cons c cs ih =>
    unfold lastDelim at h
    cases hl : lastDelim cs with
    | some j =>
      rw [hl] at h
      simp only [Option.some.injEq] at h
      subst h
      obtain ⟨hj, d, rest, hcs, hd, hrest⟩ := ih hl
      refine ⟨by simpa using hj, d, rest, ?_, hd, hrest⟩
      simp only [List.take_succ_cons, List.cons_append]
      rw [← hcs]
    | none =>
      rw [hl] at h
      by_cases hc : isDelim c = true
      · simp only [hc, if_true, Option.some.injEq] at h
        subst h
        exact ⟨by simp, c, cs, by simp, hc, lastDelim_none.mp hl⟩
      · simp [hc] at h

theorem lengthMinusOne_pos {s : List Char} (h0 : 0 < s.length) (h : s.length < npos) :
    lengthMinusOne s = s.length - 1 := by
  unfold lengthMinusOne
  unfold npos at h
  have h1 : s.length + SIZE_MOD - 1 = (s.length - 1) + SIZE_MOD := by omega
  rw [h1, Nat.add_mod_right]
  exact Nat.mod_eq_of_lt (by omega)

/-! ## The inner loop -/

theorem innerLoop_spec (env : Env) {st : Registry} {font_id : Int} {slot : vulture_font}
    (hslot : slotAt st font_id = .ok slot) (maxlen : Int) :
    ∀ (n : Nat) (C : List Char) (e : Nat) (lf : Bool), C.length < n → C.length < npos →
      ∃ C1 e1 lf1,
        innerLoop env st font_id maxlen n C e lf (text_length_of env slot C) = .ok (C1, e1, lf1) ∧
        InnerPost (text_length_of env slot) maxlen C e lf C1 e1 lf1 := by
  intro n
  induction n with
  | zero => intro C e lf h; omega
  | succ n ih =>
    intro C e lf hn hnpos
    unfold innerLoop
    by_cases hgt : text_length_of env slot C > maxlen
    · rw [if_pos hgt]
      cases hl : lastDelim C with
      | none =>
        have hf : find_last_of C = npos := by simp only [find_last_of, hl]
        simp only [hf, if_true]
        exact ⟨C, lengthMinusOne C, true, rfl,
          Or.inr (Or.inr ⟨hgt, hgt, rfl, rfl, lastDelim_none.mp hl, Or.inl rfl⟩)⟩
      | some p =>
        obtain ⟨hp, c, rest, hC, hc, _⟩ := lastDelim_some hl
        have hf : find_last_of C = p := by simp only [find_last_of, hl]
        have hne : ¬ (p = npos) := by omega
        have hmod : (p + 1) % SIZE_MOD = p + 1 := by
          apply Nat.mod_eq_of_lt
          unfold npos at hnpos
          omega
        have htake : (C.take p).length = p := by
          rw [List.length_take]; omega
        simp only [hf, hne, if_false, hmod, vulture_text_length_ok hslot, bind, Except.bind]
        obtain ⟨C1, e1, lf1, hrun, hpost⟩ :=
          ih (C.take p) (p + 1) false (by omega) (by omega)
        refine ⟨C1, e1, lf1, hrun, ?_⟩
        rcases hpost with ⟨h1, h2, h3, h4⟩ | ⟨_, h2, h3, h4, c2, rest2, h5, h6⟩ |
          ⟨_, h2, h3, h4, h5, h6⟩
        · subst h2
          refine Or.inr (Or.inl ⟨hgt, h1, h4, ?_, c, rest, hC, hc⟩)
          rw [h3, htake]
        · refine Or.inr (Or.inl ⟨hgt, h2, h3, h4, c2, rest2 ++ c :: rest, ?_, h6⟩)
          conv_lhs => rw [hC, h5]
          simp
        · refine Or.inr (Or.inr ⟨hgt, h2, h3, h4, h5, Or.inr ?_⟩)
          rcases h6 with h6 | ⟨c2, rest2, h6, h7⟩
          · exact ⟨c, rest, by rw [h6]; exact hC, hc⟩
          · refine ⟨c2, rest2 ++ c :: rest, ?_, h7⟩
            conv_lhs => rw [hC, h6]
            simp
    · rw [if_neg hgt]
      exact ⟨C, e, lf, rfl, Or.inl ⟨by omega, rfl, rfl, rfl⟩⟩

/-! ## The outer loop -/

theorem loopBody_spec (env : Env) {st : Registry} {font_id : Int} {slot : vulture_font}
    (hslot : slotAt st font_id = .ok slot) (maxlen : Int) (str : List Char)
    (hlen : str.length < npos) (sp ep : Nat) (hcur : sp + ep ≤ str.length) :
    ∃ C1 e1 lf1,
      loopBody env st font_id str maxlen sp ep = .ok (sp + ep, e1, C1, lf1) ∧
      InnerPost (text_length_of env slot) maxlen (str.drop (sp + ep))
        (lengthMinusOne (str.drop (sp + ep))) true C1 e1 lf1 := by
  have hmod : (sp + ep) % SIZE_MOD = sp + ep := by
    apply Nat.mod_eq_of_lt
    unfold npos at hlen
    omega
  have hnot : ¬ (sp + ep > str.length) := by omega
  have hdrop : (str.drop (sp + ep)).length < npos := by
    rw [List.length_drop]; omega
  obtain ⟨C1, e1, lf1, hrun, hpost⟩ :=
    innerLoop_spec env hslot maxlen ((str.drop (sp + ep)).length + 1)
      (str.drop (sp + ep)) (lengthMinusOne (str.drop (sp + ep))) true (by omega) hdrop
  refine ⟨C1, e1, lf1, ?_, hpost⟩
  unfold loopBody
  simp only [hmod, hnot, if_false, vulture_text_length_ok hslot, bind, Except.bind, hrun,
    pure, Except.pure]

theorem Wrapped_ne_nil {L : List Char → Int} {maxlen : Int} {R : List Char}
    {ls : List (List Char)} (h : Wrapped L maxlen R ls) : ls ≠ [] := by
  cases h <;> simp

theorem outerLoop_spec (env : Env) {st : Registry} {font_id : Int} {slot : vulture_font}
    (hslot : slotAt st font_id = .ok slot) (str : List Char) (hlen : str.length < npos)
    (x y : Int) (color shadowcolor : Nat) (maxlen text_height : Int) :
    ∀ (n sp ep : Nat) (lineno : Int) (dest : SDL_Surface) (calls : List ShadowCall),
      sp + ep ≤ str.length → str.length - (sp + ep) < n →
      ∃ dest1 ls,
        outerLoop env st font_id str x y color shadowcolor maxlen text_height
            n sp ep lineno dest calls
          = .ok (dest1, calls ++ mkCalls font_id x y color shadowcolor text_height lineno ls) ∧
        Wrapped (text_length_of env slot) maxlen (str.drop (sp + ep)) ls := by
  intro n
  induction n with
  | zero => intro sp ep lineno dest calls _ h; omega
  | succ n ih =>
    intro sp ep lineno dest calls hcur hn
    obtain ⟨C1, e1, lf1, hbody, hpost⟩ :=
      loopBody_spec env hslot maxlen str hlen sp ep hcur
    obtain ⟨drawn, hdraw⟩ :=
      vulture_put_text_shadow_ok env hslot C1 dest x (intAdd y (intMul lineno text_height))
        color shadowcolor
    unfold outerLoop
    simp only [hbody, hdraw, bind, Except.bind, pure, Except.pure]
    cases lf1 with
    | true =>
      simp only [if_true]
      refine ⟨drawn.1, [C1], by simp [mkCalls], ?_⟩
      rcases hpost with ⟨h1, h2, _, _⟩ | ⟨_, _, h3, _⟩ | ⟨h1, h2, _, _, h5, h6⟩
      · subst h2; exact Wrapped.whole _ h1
      · cases h3
      · exact Wrapped.stuck _ _ h1 h2 h5 (by
          rcases h6 with h6 | h6
          · exact Or.inl h6
          · exact Or.inr h6)
    | false =>
      simp only [Bool.false_eq_true, if_false]
      rcases hpost with ⟨_, _, _, h4⟩ | ⟨h1, h2, _, h4, c, rest, h5, h6⟩ | ⟨_, _, h3, _⟩
      · cases h4
      · have hlenR : (str.drop (sp + ep)).length = C1.length + 1 + rest.length := by
          rw [h5]; simp; omega
        rw [List.length_drop] at hlenR
        have hcur2 : sp + ep + e1 ≤ str.length := by omega
        have hrest : str.drop (sp + ep + e1) = rest := by
          rw [← List.drop_drop, h5, h4]
          simp
        obtain ⟨dest1, ls, hrun, hw⟩ :=
          ih (sp + ep) e1 (intAdd lineno 1) drawn.1
            (calls ++ [{ font_id := font_id, str := C1, x := x,
                         y := intAdd y (intMul lineno text_height),
                         textcolor := color, shadowcolor := shadowcolor }]) hcur2 (by omega)
        refine ⟨dest1, C1 :: ls, ?_, ?_⟩
        · rw [hrun]; simp [mkCalls]
        · rw [hrest] at hw
          exact Wrapped.split _ C1 c rest ls h1 h2 h5 h6 hw
      · cases h3

theorem multiline_spec (env : Env) {st : Registry} {font_id : Int} {slot : vulture_font}
    (hslot : slotAt st font_id = .ok slot) (str : List Char) (hlen : str.length < npos)
    (dest : SDL_Surface) (x y : Int) (color shadowcolor : Nat) (maxlen : Int) :
    ∃ dest1 ls,
      vulture_put_text_multiline env st font_id str dest x y color shadowcolor maxlen
        = .ok (dest1,
            mkCalls font_id x y color shadowcolor (text_height_of env slot str) 0 ls) ∧
      Wrapped (text_length_of env slot) maxlen str ls := by
  obtain ⟨dest1, ls, hrun, hw⟩ :=
    outerLoop_spec env hslot str hlen x y color shadowcolor maxlen
      (text_height_of env slot str) (str.length + 1) 0 0 0 dest [] (by omega) (by omega)
  refine ⟨dest1, ls, ?_, by simpa using hw⟩
  unfold vulture_put_text_multiline
  simp only [vulture_text_height_ok hslot, bind, Except.bind, hrun, List.nil_append]

theorem multiline_ok_slot {env : Env} {st : Registry} {font_id : Int} {str : List Char}
    {dest : SDL_Surface} {x y : Int} {color shadowcolor : Nat} {maxlen : Int}
    {r : SDL_Surface × List ShadowCall}
    (hrun : vulture_put_text_multiline env st font_id str dest x y color shadowcolor maxlen
      = .ok r) : ∃ slot, slotAt st font_id = .ok slot := by
  cases hs : slotAt st font_id with
  | ok slot => exact ⟨slot, rfl⟩
  | error e =>
    unfold vulture_put_text_multiline vulture_text_height at hrun
    simp only [hs, bind, Except.bind] at hrun
    cases hrun

theorem mkCalls_map_str (font_id : Int) (x y : Int) (color shadowcolor : Nat)
    (text_height : Int) (lineno : Int) (ls : List (List Char)) :
    (mkCalls font_id x y color shadowcolor text_height lineno ls).map (fun c => c.str) = ls := by
  induction ls generalizing lineno with
  | nil => rfl
  | cons l ls ih => simp [mkCalls, ih]

/-- The lines of a successful run are related to the text by `Wrapped`. -/
theorem multiline_lines {env : Env} {st : Registry} {font_id : Int} {str : List Char}
    {dest : SDL_Surface} {x y : Int} {color shadowcolor : Nat} {maxlen : Int}
    {r : SDL_Surface × List ShadowCall} (hlen : str.length < npos)
    (hrun : vulture_put_text_multiline env st font_id str dest x y color shadowcolor maxlen
      = .ok r) :
    ∃ slot, slotAt st font_id = .ok slot ∧
      Wrapped (text_length_of env slot) maxlen str (r.2.map (fun c => c.str)) := by
  obtain ⟨slot, hslot⟩ := multiline_ok_slot hrun
  obtain ⟨dest1, ls, hrun2, hw⟩ :=
    multiline_spec env hslot str hlen dest x y color shadowcolor maxlen
  rw [hrun2] at hrun
  cases hrun
  exact ⟨slot, hslot, by simpa [mkCalls_map_str] using hw⟩

theorem fits_iff {env : Env} {st : Registry} {font_id : Int} {slot : vulture_font}
    (hslot : slotAt st font_id = .ok slot) (maxlen : Int) (s : List Char) :
    fits env st font_id maxlen s = true ↔ text_length_of env slot s ≤ maxlen := by
  simp [fits, vulture_text_length_ok hslot]

/-! ## Consequences of the line relation -/

theorem Wrapped_fits_or_token {L : List Char → Int} {maxlen : Int} {R : List Char}
    {ls : List (List Char)} (h : Wrapped L maxlen R ls) :
    ∀ l ∈ ls, L l ≤ maxlen ∨ ∀ x ∈ l, isDelim x = false := by
  induction h with
  | whole R h1 =>
    intro l hl
    simp only [List.mem_singleton] at hl
    subst hl
    exact Or.inl h1
  | stuck R C _ _ h3 _ =>
    intro l hl
    simp only [List.mem_singleton] at hl
    subst hl
    exact Or.inr h3
  | split R C c rest ls _ h2 _ _ _ ih =>
    intro l hl
    rcases List.mem_cons.mp hl with rfl | hl
    · exact Or.inl h2
    · exact ih l hl

theorem Wrapped_length_le {L : List Char → Int} {maxlen : Int} {R : List Char}
    {ls : List (List Char)} (h : Wrapped L maxlen R ls) :
    ls.length ≤ countDelims R + 1 := by
  induction h with
  | whole R _ => simp
  | stuck R C _ _ _ _ => simp
  | split R C c rest ls _ _ h3 h4 _ ih =>
    subst h3
    simp only [List.length_cons, countDelims, List.countP_append, List.countP_cons, h4,
      if_true] at ih ⊢
    omega

/-! ## Tokens -/

theorem isEmpty_reverse_eq (l : List Char) : l.reverse.isEmpty = l.isEmpty := by
  cases l <;> simp

theorem tokensAux_nodelim (a : List Char) (ha : ∀ x ∈ a, isDelim x = false) (cur : List Char) :
    tokensAux cur a = if (cur.reverse ++ a).isEmpty then [] else [cur.reverse ++ a] := by
  induction a generalizing cur with
  | nil =>
    simp only [tokensAux, List.append_nil, isEmpty_reverse_eq]
  | cons c cs ih =>
    have hc : isDelim c = false := ha c (List.mem_cons_self _ _)
    have hcs : ∀ x ∈ cs, isDelim x = false := fun x hx => ha x (List.mem_cons_of_mem _ hx)
    simp only [tokensAux, hc, Bool.false_eq_true, if_false]
    rw [ih hcs]
    simp

theorem tokensAux_append_delim (a : List Char) (ha : ∀ x ∈ a, isDelim x = false) (c : Char)
    (hc : isDelim c = true) (b cur : List Char) :
    tokensAux cur (a ++ c :: b) =
      if (cur.reverse ++ a).isEmpty then tokens b else (cur.reverse ++ a) :: tokens b := by
  induction a generalizing cur with
  | nil =>
    simp only [List.nil_append, tokensAux, hc, if_true, List.append_nil, isEmpty_reverse_eq,
      tokens]
  | cons d ds ih =>
    have hd : isDelim d = false := ha d (List.mem_cons_self _ _)
    have hds : ∀ x ∈ ds, isDelim x = false := fun x hx => ha x (List.mem_cons_of_mem _ hx)
    rw [List.cons_append]
    simp only [tokensAux, hd, Bool.false_eq_true, if_false]
    rw [ih hds]
    simp

theorem tokens_mem_of_suffix (a : List Char) (c : Char) (hc : isDelim c = true) (b : List Char)
    (t : List Char) (ht : t ∈ tokens b) (cur : List Char) : t ∈ tokensAux cur (a ++ c :: b) := by
  induction a generalizing cur with
  | nil =>
    simp only [List.nil_append, tokensAux, hc, if_true]
    split
    · exact ht
    · exact List.mem_cons_of_mem _ ht
  | cons d ds ih =>
    rw [List.cons_append]
    simp only [tokensAux]
    split
    · split
      · exact ih []
      · exact List.mem_cons_of_mem _ (ih [])
    · exact ih (d :: cur)

theorem countDelims_le_tokens (s cur : List Char) :
    countDelims s ≤ (tokensAux cur s).length + emptyFieldsAux (!cur.isEmpty) s := by
  induction s generalizing cur with
  | nil => simp [countDelims]
  | cons c cs ih =>
    by_cases hc : isDelim c = true
    · have h0 := ih []
      simp only [countDelims, List.countP_cons, hc, if_true, tokensAux, emptyFieldsAux] at h0 ⊢
      cases cur with
      | nil => simp at h0 ⊢; omega
      | cons d ds => simp at h0 ⊢; omega
    · have hc2 : isDelim c = false := by simpa using hc
      have h1 := ih (c :: cur)
      simp only [countDelims, List.countP_cons, hc2, tokensAux, emptyFieldsAux,
        Bool.false_eq_true, if_false] at h1 ⊢
      simpa using h1

theorem delim_printable_eq_space {c : Char} (hd : isDelim c = true) (hp : isprint c = true) :
    c = ' ' := by
  simp only [isDelim, Bool.or_eq_true, beq_iff_eq] at hd
  rcases hd with (h | h) | h
  · exact h
  · subst h; revert hp; decide
  · subst h; revert hp; decide

theorem Wrapped_round_trip {L : List Char → Int} {maxlen : Int} (hL0 : L [] = 0)
    (hbudget : 0 ≤ maxlen) {R : List Char} {ls : List (List Char)}
    (h : Wrapped L maxlen R ls) :
    (∀ c ∈ R, isprint c = true) → (∀ t ∈ tokens R, L t ≤ maxlen) → joinWithSpace ls = R := by
  induction h with
  | whole R _ => intro _ _; rfl
  | stuck R C _ h2 h3 h4 =>
    intro _ htok
    exfalso
    cases C with
    | nil => rw [hL0] at h2; omega
    | cons d ds =>
      have hmem : (d :: ds) ∈ tokens R := by
        rcases h4 with h4 | ⟨c, rest, h4, h5⟩
        · rw [← h4, tokens, tokensAux_nodelim _ h3]
          simp
        · rw [h4, tokens, tokensAux_append_delim _ h3 c h5]
          simp
      have := htok _ hmem
      omega
  | split R C c rest ls _ _ h3 h4 h5 ih =>
    intro hprint htok
    subst h3
    have hc : c = ' ' :=
      delim_printable_eq_space h4 (hprint c (by simp))
    have hrest : joinWithSpace ls = rest := by
      apply ih
      · intro x hx; exact hprint x (by simp [hx])
      · intro t ht; exact htok t (tokens_mem_of_suffix C c h4 rest t ht [])
    have hne := Wrapped_ne_nil h5
    cases ls with
    | nil => exact absurd rfl hne
    | cons l ls2 =>
      simp only [joinWithSpace]
      rw [hrest, hc]

/-! ## Claims on the word-wrap loop -/

/-- C1 (defect of the code): on "The quick brown fox jumps" with budget 40, a
font in which "The" measures 26 and "quick" 42, the loop draws "The" and then
"quick" and stops: the tokens "brown", "fox" and "jumps" of the input occur in
no drawn line, because the branch taken when no separator is left sets
`lastfit` again although text had been split off in that turn. -/
theorem C1_text_after_long_word_dropped :
    linesOf (vulture_put_text_multiline demoEnv demoRegistry 0
        "The quick brown fox jumps".toList demoSurface 10 10 0 0x808080 40)
      = some ["The".toList, "quick".toList] ∧
    tokens "The quick brown fox jumps".toList
      = ["The".toList, "quick".toList, "brown".toList, "fox".toList, "jumps".toList] ∧
    vulture_text_length demoEnv demoRegistry 0 "The".toList = .ok 26 ∧
    vulture_text_length demoEnv demoRegistry 0 "quick".toList = .ok 42 :=
  ⟨by decide, by decide, rfl, rfl⟩

/-- C2: every line that `vulture_put_text_multiline` passes to
`vulture_put_text_shadow` either measures at most `maxlen` under
`vulture_text_length` or contains no space, tab or newline.  The bound on the
length is the one every `std::string` satisfies. -/
theorem C2_line_fits_or_unsplittable (env : Env) (st : Registry) (font_id : Int)
    (str : List Char) (dest : SDL_Surface) (x y : Int) (color shadowcolor : Nat) (maxlen : Int)
    (r : SDL_Surface × List ShadowCall) (hlen : str.length < npos)
    (hrun : vulture_put_text_multiline env st font_id str dest x y color shadowcolor maxlen
      = .ok r) :
    ∀ call ∈ r.2,
      fits env st font_id maxlen call.str = true ∨ ∀ c ∈ call.str, isDelim c = false := by
  obtain ⟨slot, hslot, hw⟩ := multiline_lines hlen hrun
  intro call hcall
  have hmem : call.str ∈ r.2.map (fun c => c.str) := List.mem_map_of_mem _ hcall
  rcases Wrapped_fits_or_token hw _ hmem with h | h
  · exact Or.inl ((fits_iff hslot maxlen _).mpr h)
  · exact Or.inr h

/-- Witness of C2 on the text "The quick brown fox jumps" with budget 40. -/
theorem C2_line_fits_or_unsplittable_witness :
    ∃ r, vulture_put_text_multiline demoEnv demoRegistry 0 "The quick brown fox jumps".toList
        demoSurface 10 10 0 0x808080 40 = .ok r ∧
      ∀ call ∈ r.2,
        fits demoEnv demoRegistry 0 40 call.str = true ∨ ∀ c ∈ call.str, isDelim c = false :=
  ⟨_, rfl, C2_line_fits_or_unsplittable demoEnv demoRegistry 0
    "The quick brown fox jumps".toList demoSurface 10 10 0 0x808080 40 _ (by decide) rfl⟩

/-- C3 (defect of the code): the text " " is printable and has no token, so
the budget -1 is at least the width of every token.  The first turn cuts the
candidate before the space, which leaves `lastfit` unset; the empty candidate
does not fit either and has no separator, so the guard against long words sets
`lastfit` again and the loop ends after the single line "".  Joining the lines
gives the empty text, not " ": the part of the text behind the cut is never
drawn, by the defect that C1 shows. -/
theorem C3_blank_text_negative_budget :
    (∀ c ∈ " ".toList, isprint c = true) ∧
    (∀ t ∈ tokens " ".toList, fits demoEnv demoRegistry 0 (-1) t = true) ∧
    loopBody demoEnv demoRegistry 0 " ".toList (-1) 0 0 = .ok (0, npos, [], true) ∧
    linesOf (vulture_put_text_multiline demoEnv demoRegistry 0 " ".toList demoSurface
      10 10 0 0x808080 (-1)) = some [[]] ∧
    joinWithSpace [[]] ≠ " ".toList :=
  ⟨by decide, by decide, rfl, by decide, by decide⟩

/-- Round trip for budgets that are not negative: for a text of printable
characters and a budget that is at least 0 and at least the measured width of
every whitespace-delimited token of the text, the lines drawn by
`vulture_put_text_multiline`, joined with exactly one space between consecutive
lines, are the text.  In such a run the guard against long words is never
reached. -/
theorem round_trip_nonneg_budget (env : Env) (st : Registry) (font_id : Int)
    (str : List Char) (dest : SDL_Surface) (x y : Int) (color shadowcolor : Nat) (maxlen : Int)
    (r : SDL_Surface × List ShadowCall) (hlen : str.length < npos)
    (hprint : ∀ c ∈ str, isprint c = true) (hbudget : 0 ≤ maxlen)
    (htok : ∀ t ∈ tokens str, fits env st font_id maxlen t = true)
    (hrun : vulture_put_text_multiline env st font_id str dest x y color shadowcolor maxlen
      = .ok r) :
    joinWithSpace (r.2.map (fun c => c.str)) = str := by
  obtain ⟨slot, hslot, hw⟩ := multiline_lines hlen hrun
  exact Wrapped_round_trip (text_length_of_nil env slot) hbudget hw hprint
    (fun t ht => (fits_iff hslot maxlen t).mp (htok t ht))

/-- The round trip on " ab  cd e " with budget 20, where each of the tokens
measures at most 18. -/
theorem round_trip_nonneg_budget_example :
    ∃ r, vulture_put_text_multiline demoEnv demoRegistry 0 " ab  cd e ".toList
        demoSurface 10 10 0 0x808080 20 = .ok r ∧
      joinWithSpace (r.2.map (fun c => c.str)) = " ab  cd e ".toList :=
  ⟨_, rfl, round_trip_nonneg_budget demoEnv demoRegistry 0 " ab  cd e ".toList demoSurface
    10 10 0 0x808080 20 _ (by decide) (by decide) (by decide) (by decide) rfl⟩

/-- C4 as stated fails: the text " " has no token, and with budget 0 the loop
draws two lines (both empty), more than the number of tokens plus one. -/
theorem C4_counterexample_blank_text :
    linesOf (vulture_put_text_multiline demoEnv demoRegistry 0 " ".toList demoSurface
      10 10 0 0x808080 0) = some [[], []] ∧
    (tokens " ".toList).length + 1 = 1 := by
  decide

/-- C4 (amended): the number of lines drawn by `vulture_put_text_multiline` is
at most `T + E + 1`, where `T` is the number of whitespace-delimited tokens of
the text and `E` the number of its separators that stand first or directly
after another separator. -/
theorem C4_line_count_bound (env : Env) (st : Registry) (font_id : Int)
    (str : List Char) (dest : SDL_Surface) (x y : Int) (color shadowcolor : Nat) (maxlen : Int)
    (r : SDL_Surface × List ShadowCall) (hlen : str.length < npos)
    (hrun : vulture_put_text_multiline env st font_id str dest x y color shadowcolor maxlen
      = .ok r) :
    r.2.length ≤ (tokens str).length + emptyFields str + 1 := by
  obtain ⟨slot, _, hw⟩ := multiline_lines hlen hrun
  have h1 := Wrapped_length_le hw
  have h2 := countDelims_le_tokens str []
  simp only [List.length_map, List.isEmpty_nil, Bool.not_true] at h1 h2
  unfold tokens emptyFields
  omega

/-- Witness of C4 on " ab  cd e " with budget 20. -/
theorem C4_line_count_bound_witness :
    ∃ r, vulture_put_text_multiline demoEnv demoRegistry 0 " ab  cd e ".toList
        demoSurface 10 10 0 0x808080 20 = .ok r ∧
      r.2.length ≤ (tokens " ab  cd e ".toList).length + emptyFields " ab  cd e ".toList + 1 :=
  ⟨_, rfl, C4_line_count_bound demoEnv demoRegistry 0 " ab  cd e ".toList demoSurface 10 10 0
    0x808080 20 _ (by decide) rfl⟩

theorem loopBody_error_of_slot (env : Env) {st : Registry} {font_id : Int} {e : Fault}
    (hs : slotAt st font_id = .error e) (str : List Char) (maxlen : Int) (sp ep : Nat) :
    ∃ e1, loopBody env st font_id str maxlen sp ep = .error e1 := by
  unfold loopBody vulture_text_length
  simp only [hs, bind, Except.bind]
  split
  · exact ⟨_, rfl⟩
  · exact ⟨_, rfl⟩

theorem bind_eq_ok {α β : Type} {x : Except Fault α} {f : α → Except Fault β} {b : β} :
    (x >>= f) = .ok b ↔ ∃ a, x = .ok a ∧ f a = .ok b := by
  cases x <;> simp [bind, Except.bind]

theorem slotAt_congr {st st1 : Registry} (h : st1.vulture_fonts = st.vulture_fonts)
    (k : Int) : slotAt st1 k = slotAt st k := by
  unfold slotAt
  rw [h]

theorem slotAt_of_table {st : Registry} {table : List vulture_font}
    (ht : st.vulture_fonts = some table) {k : Int} (h0 : 0 ≤ k) (h1 : k < table.length) :
    slotAt st k = .ok (table.getD k.toNat { fontptr := none, lineheight := 0 }) := by
  have hk : k.toNat < table.length := by omega
  unfold slotAt
  simp only [ht, h0, h1, and_self, if_true]
  rw [List.get?_eq_getElem?, List.getElem?_eq_getElem hk]
  simp [List.getD_eq_getElem?_getD, List.getElem?_eq_getElem hk]

theorem setSlot_inv {st st1 : Registry} {k : Int} {s : vulture_font}
    (h : setSlot st k s = .ok st1) :
    ∃ table, st.vulture_fonts = some table ∧ 0 ≤ k ∧ k < table.length ∧
      st1 = { st with vulture_fonts := some (table.set k.toNat s) } := by
  unfold setSlot at h
  cases ht : st.vulture_fonts with
  | none => rw [ht] at h; cases h
  | some table =>
    rw [ht] at h
    simp only at h
    by_cases hr : 0 ≤ k ∧ k < table.length
    · rw [if_pos hr] at h
      cases h
      exact ⟨table, rfl, hr.1, hr.2, rfl⟩
    · rw [if_neg hr] at h; cases h

theorem setSlot_slotAt {st st1 : Registry} {k : Int} {s : vulture_font}
    (h : setSlot st k s = .ok st1) : slotAt st1 k = .ok s := by
  obtain ⟨table, _, h0, h1, rfl⟩ := setSlot_inv h
  have hk : k.toNat < table.length := by omega
  have hst : ({ st with vulture_fonts := some (table.set k.toNat s) } : Registry).vulture_fonts
      = some (table.set k.toNat s) := rfl
  rw [slotAt_of_table hst h0 (by simpa using h1)]
  simp [List.getD_eq_getElem?_getD, hk]

/-! ## Claims on the metrics adapter and the registry -/

/-- C7 as stated fails: with the table never allocated the measurement reads
through the absent table, also for the empty text; and the slot id 5 is used
as an index although the table has two slots. -/
theorem C7_counterexample_unchecked_access :
    vulture_text_length demoEnv Registry.initial 0 [] = .error .nullDeref ∧
    vulture_text_height demoEnv Registry.initial 0 [] = .error .nullDeref ∧
    vulture_text_length demoEnv demoRegistry 5 [] = .error .outOfBounds ∧
    vulture_text_height demoEnv demoRegistry 5 [] = .error .outOfBounds :=
  ⟨rfl, rfl, rfl, rfl⟩

/-- C7 (amended): in a registry whose slot table is allocated, for a slot id in
`[0, VULTURE_MAX_FONTS)`, `vulture_text_length` and `vulture_text_height`
return 0 whenever the text is empty or the slot holds no loaded font. -/
theorem C7_measure_zero (env : Env) (st : Registry) (font_id : Int) (str : List Char)
    (table : List vulture_font) (ht : st.vulture_fonts = some table)
    (htl : (table.length : Int) = VULTURE_MAX_FONTS)
    (h0 : 0 ≤ font_id) (h1 : font_id < VULTURE_MAX_FONTS)
    (h : str = [] ∨ (slotView st font_id.toNat).fontptr = none) :
    vulture_text_length env st font_id str = .ok 0 ∧
    vulture_text_height env st font_id str = .ok 0 := by
  have hslot := slotAt_of_table ht h0 (by omega : font_id < table.length)
  rw [vulture_text_length_ok hslot, vulture_text_height_ok hslot]
  simp only [slotView, ht] at h
  unfold text_length_of text_height_of
  rcases h with h | h
  · subst h
    cases (table.getD font_id.toNat { fontptr := none, lineheight := 0 }).fontptr <;> simp
  · rw [h]
    exact ⟨rfl, rfl⟩

/-- Witness of C7: the empty slot 1 of the demo registry, and the empty text in
the loaded slot 0. -/
theorem C7_measure_zero_witness :
    (vulture_text_length demoEnv demoRegistry 1 "abc".toList = .ok 0 ∧
      vulture_text_height demoEnv demoRegistry 1 "abc".toList = .ok 0) ∧
    (vulture_text_length demoEnv demoRegistry 0 [] = .ok 0 ∧
      vulture_text_height demoEnv demoRegistry 0 [] = .ok 0) :=
  ⟨C7_measure_zero demoEnv demoRegistry 1 "abc".toList _ rfl (by decide) (by decide)
      (by decide) (Or.inr (by decide)),
   C7_measure_zero demoEnv demoRegistry 0 [] _ rfl (by decide) (by decide)
      (by decide) (Or.inl rfl)⟩

/-- C8 as stated fails: in the fully-uninitialized state `vulture_free_fonts`
reads `vulture_fonts[0]` through the absent table, so a shutdown when nothing
was loaded does not complete, and neither does a second shutdown in a row. -/
theorem C8_counterexample_shutdown_uninitialized :
    vulture_free_fonts Registry.initial = .error .nullDeref ∧
    (vulture_free_fonts demoRegistry >>= vulture_free_fonts) = .error .nullDeref :=
  ⟨rfl, rfl⟩

/-- C8 (amended): called in a state whose slot table is allocated,
`vulture_free_fonts` completes, closes the loaded handles in slot order and
leaves the registry fully uninitialized (table absent, library not
initialized); it is not idempotent, a shutdown directly after it reads through
the absent table. -/
theorem C8_shutdown_from_allocated (st : Registry) (table : List vulture_font)
    (ht : st.vulture_fonts = some table) (htl : (table.length : Int) = VULTURE_MAX_FONTS) :
    ∃ st1, vulture_free_fonts st = .ok st1 ∧ st1.vulture_fonts = none ∧
      st1.wasInit = false ∧
      st1.closed = st.closed ++ table.filterMap (fun slot => slot.fontptr) ∧
      vulture_free_fonts st1 = .error .nullDeref := by
  have hl : table.length = 2 := by
    have : (table.length : Int) = 2 := htl
    omega
  obtain ⟨a, b, rfl⟩ := List.length_eq_two.mp hl
  obtain ⟨w, fonts, closed⟩ := st
  simp only at ht
  subst ht
  obtain ⟨pa, la⟩ := a
  obtain ⟨pb, lb⟩ := b
  cases pa <;> cases pb <;>
    exact ⟨_, rfl, rfl, rfl, by simp, rfl⟩

/-- Witness of C8 on the demo registry. -/
theorem C8_shutdown_from_allocated_witness :
    ∃ st1, vulture_free_fonts demoRegistry = .ok st1 ∧ st1.vulture_fonts = none ∧
      st1.wasInit = false ∧
      st1.closed = [{ handle := 1 }] ∧
      vulture_free_fonts st1 = .error .nullDeref :=
  C8_shutdown_from_allocated demoRegistry _ rfl (by decide)

theorem toChar_exact (signed : Bool) (v : Int) (h0 : 0 ≤ v) (h1 : v ≤ 127) :
    toChar signed v = v := by
  unfold toChar
  cases signed
  · simp only [Bool.false_eq_true, if_false]; omega
  · simp only [if_true]; omega

theorem toChar_intAdd (signed : Bool) (a b : Int) :
    toChar signed (intAdd a b) = toChar signed (a + b) := by
  unfold toChar intAdd wrapInt32
  cases signed
  · simp only [Bool.false_eq_true, if_false]; omega
  · simp only [if_true]; omega

theorem load_success_slot {env : Env} {st st1 : Registry} {font_id : Int} {initOk : Bool}
    {f : TTF_Font}
    (h : vulture_load_font env st font_id initOk (some f) = .ok (st1, true)) :
    font_id < VULTURE_MAX_FONTS ∧
    slotAt st1 font_id = .ok
      { fontptr := some f, lineheight := toChar env.charSigned (env.FontAscent f + 2) } := by
  unfold vulture_load_font at h
  by_cases c1 : (!st.wasInit && !initOk) = true
  · rw [if_pos c1] at h; cases h
  · rw [if_neg c1] at h
    simp only at h
    by_cases c2 : font_id ≥ VULTURE_MAX_FONTS
    · rw [if_pos c2] at h; cases h
    · rw [if_neg c2] at h
      simp only [bind_eq_ok] at h
      obtain ⟨slot, _, st3, hs3, slot3, hslot3, st4, hs4, hfin⟩ := h
      cases hfin
      have h3 := setSlot_slotAt hs3
      rw [h3] at hslot3
      cases hslot3
      exact ⟨by omega, setSlot_slotAt hs4⟩

/-- C9 as stated fails: the field `lineheight` is a `char`.  With a signed
`char` and a font of ascent 126 the successful load stores -128, which
`vulture_get_lineheight` returns instead of 128; with an unsigned `char` and
ascent 254 it returns 0 instead of 256. -/
theorem C9_counterexample_char_lineheight :
    (vulture_load_font (ascentEnv true 126) Registry.initial 0 true (some { handle := 7 })
        >>= fun r => pure r.2) = .ok true ∧
    (vulture_load_font (ascentEnv true 126) Registry.initial 0 true (some { handle := 7 })
        >>= fun r => vulture_get_lineheight r.1 0) = .ok (-128) ∧
    (vulture_load_font (ascentEnv false 254) Registry.initial 0 true (some { handle := 7 })
        >>= fun r => pure r.2) = .ok true ∧
    (vulture_load_font (ascentEnv false 254) Registry.initial 0 true (some { handle := 7 })
        >>= fun r => vulture_get_lineheight r.1 0) = .ok 0 :=
  ⟨rfl, rfl, rfl, rfl⟩

/-- C9 (amended): after a successful load of the font `f` into slot `font_id`,
`vulture_get_lineheight` returns `ascent + 2` converted to `char`; that is
exactly `ascent + 2` when `-2 ≤ ascent ≤ 125`, whatever the signedness of
`char`, and hence a positive integer when `0 ≤ ascent ≤ 125`. -/
theorem C9_lineheight_after_load (env : Env) (st st1 : Registry) (font_id : Int)
    (initOk : Bool) (f : TTF_Font)
    (h : vulture_load_font env st font_id initOk (some f) = .ok (st1, true)) :
    vulture_get_lineheight st1 font_id
      = .ok (toChar env.charSigned (env.FontAscent f + 2)) ∧
    (-2 ≤ env.FontAscent f → env.FontAscent f ≤ 125 →
      vulture_get_lineheight st1 font_id = .ok (env.FontAscent f + 2)) ∧
    (0 ≤ env.FontAscent f → env.FontAscent f ≤ 125 →
      ∃ v, vulture_get_lineheight st1 font_id = .ok v ∧ 0 < v) := by
  obtain ⟨hid, hslot⟩ := load_success_slot h
  have hget : vulture_get_lineheight st1 font_id
      = .ok (toChar env.charSigned (env.FontAscent f + 2)) := by
    unfold vulture_get_lineheight
    rw [if_pos hid]
    simp only [hslot, bind, Except.bind, pure, Except.pure]
  refine ⟨hget, ?_, ?_⟩
  · intro h0 h1
    rw [hget, toChar_exact _ _ (by omega) (by omega)]
  · intro h0 h1
    refine ⟨_, hget, ?_⟩
    rw [toChar_exact _ _ (by omega) (by omega)]
    omega

/-- Witness of C9: a font of ascent 12 loaded into slot 1 of the demo
registry. -/
theorem C9_lineheight_after_load_witness :
    ∃ st1, vulture_load_font demoEnv demoRegistry 1 true (some { handle := 9 })
        = .ok (st1, true) ∧
      vulture_get_lineheight st1 1 = .ok 14 :=
  ⟨_, rfl, (C9_lineheight_after_load demoEnv demoRegistry _ 1 true { handle := 9 } rfl).2.1
    (by decide) (by decide)⟩

theorem load_failure_state {env : Env} {st st1 : Registry} {font_id : Int} {initOk : Bool}
    {newfont : Option TTF_Font}
    (h : vulture_load_font env st font_id initOk newfont = .ok (st1, false)) :
    ((st.wasInit = false ∧ initOk = false) ∧ st1 = st) ∨
    ((font_id ≥ VULTURE_MAX_FONTS ∨ newfont = none) ∧ st1 = afterInit st) := by
  unfold vulture_load_font at h
  by_cases c1 : (!st.wasInit && !initOk) = true
  · rw [if_pos c1] at h
    cases h
    simp only [Bool.and_eq_true, Bool.not_eq_true'] at c1
    exact Or.inl ⟨c1, rfl⟩
  · rw [if_neg c1] at h
    simp only at h
    by_cases c2 : font_id ≥ VULTURE_MAX_FONTS
    · rw [if_pos c2] at h
      cases h
      exact Or.inr ⟨Or.inl c2, rfl⟩
    · rw [if_neg c2] at h
      cases newfont with
      | none =>
        cases h
        exact Or.inr ⟨Or.inr rfl, rfl⟩
      | some f =>
        simp only [bind_eq_ok] at h
        obtain ⟨_, _, _, _, _, _, _, _, hfin⟩ := h
        cases hfin

theorem slotView_afterInit (st : Registry) (k : Nat) :
    slotView (afterInit st) k = slotView st k := by
  unfold afterInit
  by_cases hw : (!st.wasInit) = true
  · rw [if_pos hw]
    unfold slotView
    cases st.vulture_fonts with
    | some table => rfl
    | none =>
      simp only [callocFonts]
      rcases k with _ | _ | k <;> rfl
  · rw [if_neg hw]

theorem afterInit_closed (st : Registry) : (afterInit st).closed = st.closed := by
  unfold afterInit
  split <;> rfl

theorem afterInit_table (st : Registry) (table : List vulture_font)
    (ht : st.vulture_fonts = some table) : (afterInit st).vulture_fonts = some table := by
  unfold afterInit
  split
  · simp only [ht]
  · exact ht

/-- C10: a failed load is atomic on the slots.  When `vulture_load_font`
returns `FALSE`, it is because the library initialisation failed, the slot id
is at least `VULTURE_MAX_FONTS` or the font could not be opened; the handle
and line height of every slot are as before the call; no font handle was
closed; and a table that was allocated is unchanged, so that later measure,
draw and line-height calls answer as they did before the call. -/
theorem C10_failed_load_atomic (env : Env) (st st1 : Registry) (font_id : Int)
    (initOk : Bool) (newfont : Option TTF_Font)
    (h : vulture_load_font env st font_id initOk newfont = .ok (st1, false)) :
    ((st.wasInit = false ∧ initOk = false) ∨ font_id ≥ VULTURE_MAX_FONTS ∨ newfont = none) ∧
    (∀ k, slotView st1 k = slotView st k) ∧
    st1.closed = st.closed ∧
    (∀ table, st.vulture_fonts = some table →
      st1.vulture_fonts = some table ∧
      ∀ (k : Int) (s : List Char) (dest : SDL_Surface) (x y : Int) (color : Nat),
        vulture_text_length env st1 k s = vulture_text_length env st k s ∧
        vulture_text_height env st1 k s = vulture_text_height env st k s ∧
        vulture_get_lineheight st1 k = vulture_get_lineheight st k ∧
        vulture_put_text env st1 k s dest x y color
          = vulture_put_text env st k s dest x y color) := by
  have key : st1 = st ∨ st1 = afterInit st := by
    rcases load_failure_state h with ⟨_, h2⟩ | ⟨_, h2⟩
    · exact Or.inl h2
    · exact Or.inr h2
  have hview : ∀ k, slotView st1 k = slotView st k := by
    intro k
    rcases key with rfl | rfl
    · rfl
    · exact slotView_afterInit st k
  have hclosed : st1.closed = st.closed := by
    rcases key with rfl | rfl
    · rfl
    · exact afterInit_closed st
  have htable : ∀ table, st.vulture_fonts = some table → st1.vulture_fonts = some table := by
    intro table ht
    rcases key with rfl | rfl
    · exact ht
    · exact afterInit_table st table ht
  refine ⟨?_, hview, hclosed, ?_⟩
  · rcases load_failure_state h with ⟨h1, _⟩ | ⟨h1, _⟩
    · exact Or.inl h1
    · exact Or.inr h1
  · intro table ht
    have heq : st1.vulture_fonts = st.vulture_fonts := by rw [htable table ht, ht]
    have hslot : ∀ k, slotAt st1 k = slotAt st k := slotAt_congr heq
    refine ⟨htable table ht, ?_⟩
    intro k s dest x y color
    unfold vulture_text_length vulture_text_height vulture_get_lineheight vulture_put_text
    simp only [hslot, and_self]

/-- Witness of C10: opening the font file fails while slot 0 of the demo
registry holds a font. -/
theorem C10_failed_load_atomic_witness :
    ∃ st1, vulture_load_font demoEnv demoRegistry 0 true none = .ok (st1, false) ∧
      st1.closed = demoRegistry.closed ∧
      vulture_get_lineheight st1 0 = vulture_get_lineheight demoRegistry 0 :=
  have h := C10_failed_load_atomic demoEnv demoRegistry demoRegistry 0 true none rfl
  ⟨demoRegistry, rfl, h.2.2.1, ((h.2.2.2 _ rfl).2 0 [] demoSurface 0 0 0).2.2.1⟩

/-! ## Claims on a successful load -/

theorem load_success_state {env : Env} {st st1 : Registry} {font_id : Int} {initOk : Bool}
    {f : TTF_Font}
    (h : vulture_load_font env st font_id initOk (some f) = .ok (st1, true)) :
    ∃ table, (afterInit st).vulture_fonts = some table ∧ 0 ≤ font_id ∧
      font_id < table.length ∧ font_id < VULTURE_MAX_FONTS ∧
      st1.vulture_fonts = some (table.set font_id.toNat
        { fontptr := some f, lineheight := toChar env.charSigned (env.FontAscent f + 2) }) ∧
      st1.wasInit = (afterInit st).wasInit ∧
      st1.closed = st.closed ++
        (match (table.getD font_id.toNat { fontptr := none, lineheight := 0 }).fontptr with
         | some old => [old]
         | none => []) := by
  unfold vulture_load_font at h
  by_cases c1 : (!st.wasInit && !initOk) = true
  · rw [if_pos c1] at h; cases h
  · rw [if_neg c1] at h
    simp only at h
    by_cases c2 : font_id ≥ VULTURE_MAX_FONTS
    · rw [if_pos c2] at h; cases h
    · rw [if_neg c2] at h
      simp only [bind_eq_ok] at h
      obtain ⟨slot, hslot, st3, hs3, slot3, hslot3, st4, hs4, hfin⟩ := h
      cases hfin
      obtain ⟨table, ht, h0, h1, hget⟩ := slotAt_inv hslot
      have hk : font_id.toNat < table.length := by omega
      have hslotD : table.getD font_id.toNat { fontptr := none, lineheight := 0 } = slot := by
        rw [List.get?_eq_getElem?] at hget
        simp [List.getD_eq_getElem?_getD, hget]
      have h3 := setSlot_slotAt hs3
      rw [h3] at hslot3
      cases hslot3
      obtain ⟨t3, ht3, _, _, hst3⟩ := setSlot_inv hs3
      obtain ⟨t4, ht4, _, _, hst4⟩ := setSlot_inv hs4
      have ht3' : t3 = table := by
        cases hp : slot.fontptr <;> simp only [hp] at ht3 <;> rw [ht] at ht3 <;>
          exact (Option.some.inj ht3).symm
      subst ht3'
      have ht4' : t4 = t3.set font_id.toNat { slot with fontptr := some f } := by
        rw [hst3] at ht4
        exact (Option.some.inj ht4).symm
      refine ⟨t3, ht, h0, h1, by omega, ?_, ?_, ?_⟩
      · rw [hst4, ht4']
        simp [List.set_set]
      · rw [hst4, hst3]
        cases hp : slot.fontptr <;> rfl
      · rw [hst4, hst3, hslotD, afterInit_closed st |>.symm]
        cases hp : slot.fontptr <;> simp

theorem slotView_of_table {st : Registry} {table : List vulture_font}
    (ht : st.vulture_fonts = some table) (j : Nat) :
    slotView st j = table.getD j { fontptr := none, lineheight := 0 } := by
  simp only [slotView, ht]

/-- C11: a successful load into slot `font_id` changes exactly that slot: the
handle and line height of every other slot are as before the call, the slot
itself holds the newly opened handle with the line height computed from its
ascent, and the log of closed handles grows by exactly the handle that the
slot held before, if it held one, and by nothing else. -/
theorem C11_successful_load_frame (env : Env) (st st1 : Registry) (font_id : Int)
    (initOk : Bool) (f : TTF_Font)
    (h : vulture_load_font env st font_id initOk (some f) = .ok (st1, true)) :
    (0 ≤ font_id ∧ font_id < VULTURE_MAX_FONTS) ∧
    (∀ j : Nat, j ≠ font_id.toNat → slotView st1 j = slotView st j) ∧
    slotView st1 font_id.toNat =
      { fontptr := some f, lineheight := toChar env.charSigned (env.FontAscent f + 2) } ∧
    st1.closed = st.closed ++
      (match (slotView st font_id.toNat).fontptr with
       | some old => [old]
       | none => []) := by
  obtain ⟨table, ht, h0, h1, h2, hfonts, _, hclosed⟩ := load_success_state h
  have hk : font_id.toNat < table.length := by omega
  have hview : ∀ j, slotView st j = table.getD j { fontptr := none, lineheight := 0 } := by
    intro j
    rw [← slotView_afterInit st j, slotView_of_table ht]
  refine ⟨⟨h0, h2⟩, ?_, ?_, ?_⟩
  · intro j hj
    rw [slotView_of_table hfonts, hview]
    simp only [List.getD_eq_getElem?_getD]
    rw [List.getElem?_set_ne (Ne.symm hj)]
  · rw [slotView_of_table hfonts]
    simp [List.getD_eq_getElem?_getD, hk]
  · rw [hclosed, hview]

/-- Witness of C11: a second font loaded into slot 0 of the demo registry
closes the first one and leaves slot 1 alone. -/
theorem C11_successful_load_frame_witness :
    ∃ st1, vulture_load_font demoEnv demoRegistry 0 true (some { handle := 9 })
        = .ok (st1, true) ∧
      slotView st1 1 = slotView demoRegistry 1 ∧
      slotView st1 0 = { fontptr := some { handle := 9 }, lineheight := 14 } ∧
      st1.closed = [{ handle := 1 }] :=
  have h := C11_successful_load_frame demoEnv demoRegistry _ 0 true { handle := 9 } rfl
  ⟨_, rfl, h.2.1 1 (by decide), h.2.2.1, h.2.2.2⟩

/-! ## Claims on the line height query and the single-line renderer -/

/-- C12 as stated fails: `vulture_get_lineheight` tests only
`font_id < VULTURE_MAX_FONTS` before it reads the slot, so a negative id is
used as an index, and in the never-initialized and the post-shutdown state the
read goes through the absent table. -/
theorem C12_counterexample_unguarded_read :
    vulture_get_lineheight Registry.initial 0 = .error .nullDeref ∧
    (vulture_free_fonts demoRegistry >>= fun st => vulture_get_lineheight st 0)
      = .error .nullDeref ∧
    vulture_get_lineheight demoRegistry (-1) = .error .outOfBounds :=
  ⟨rfl, rfl, rfl⟩

/-- C12 (amended): for a slot id that is at least `VULTURE_MAX_FONTS`,
`vulture_get_lineheight` returns 0 in every registry state, the
never-initialized one included, without reading the table; and in a state
whose table is allocated, for every slot id that is not negative, it returns
the stored line height when the id is below `VULTURE_MAX_FONTS` and the slot
holds a font, and 0 otherwise. -/
theorem C12_lineheight_query (st : Registry) (font_id : Int) :
    (font_id ≥ VULTURE_MAX_FONTS → vulture_get_lineheight st font_id = .ok 0) ∧
    (∀ table, st.vulture_fonts = some table → (table.length : Int) = VULTURE_MAX_FONTS →
      0 ≤ font_id →
      vulture_get_lineheight st font_id = .ok
        (if font_id < VULTURE_MAX_FONTS ∧ (slotView st font_id.toNat).fontptr.isSome = true
         then (slotView st font_id.toNat).lineheight else 0)) := by
  refine ⟨?_, ?_⟩
  · intro hge
    unfold vulture_get_lineheight
    rw [if_neg (by omega)]
    rfl
  · intro table ht htl h0
    unfold vulture_get_lineheight
    by_cases hlt : font_id < VULTURE_MAX_FONTS
    · rw [if_pos hlt, slotAt_of_table ht h0 (by omega), slotView_of_table ht]
      simp only [bind, Except.bind, pure, Except.pure, hlt, true_and]
      cases (table.getD font_id.toNat { fontptr := none, lineheight := 0 }).fontptr <;> simp
    · rw [if_neg hlt]
      simp only [hlt, false_and, if_false]
      rfl

/-- Witness of C12: slot 0 of the demo registry holds a font of line height
14, slot 1 is empty, and the id 5 is answered without a table. -/
theorem C12_lineheight_query_witness :
    vulture_get_lineheight Registry.initial 5 = .ok 0 ∧
    vulture_get_lineheight demoRegistry 0 = .ok 14 ∧
    vulture_get_lineheight demoRegistry 1 = .ok 0 :=
  ⟨(C12_lineheight_query Registry.initial 5).1 (by decide),
   (C12_lineheight_query demoRegistry 0).2 _ rfl (by decide) (by decide),
   (C12_lineheight_query demoRegistry 1).2 _ rfl (by decide) (by decide)⟩

theorem put_text_result {env : Env} {st : Registry} {font_id : Int} {str : List Char}
    {dest : SDL_Surface} {x y : Int} {color : Nat} {r : SDL_Surface × Bool}
    (h : vulture_put_text env st font_id str dest x y color = .ok r) :
    r = (dest, false) ∨ ∃ ts, r = (blitOnto dest ts x y, true) := by
  unfold vulture_put_text at h
  by_cases hid : font_id ≥ VULTURE_MAX_FONTS
  · rw [if_pos hid] at h
    cases h
    exact Or.inl rfl
  · rw [if_neg hid] at h
    simp only [bind_eq_ok] at h
    obtain ⟨slot, _, h⟩ := h
    cases hp : slot.fontptr with
    | none =>
      rw [hp] at h
      cases h
      exact Or.inl rfl
    | some f =>
      rw [hp] at h
      simp only at h
      by_cases he : str.isEmpty = true
      · rw [if_pos he] at h
        cases h
        exact Or.inl rfl
      · rw [if_neg he] at h
        split at h
        · cases h
          exact Or.inl rfl
        · cases h
          exact Or.inr ⟨_, rfl⟩

theorem put_text_transport {env : Env} {st : Registry} {font_id : Int} {str : List Char}
    {dest dest2 : SDL_Surface} {x y : Int} {color : Nat} {r : SDL_Surface × Bool}
    (hf : dest2.format = dest.format)
    (h : vulture_put_text env st font_id str dest x y color = .ok r) :
    vulture_put_text env st font_id str dest2 x y color
      = .ok ({ dest2 with blits := dest2.blits ++ r.1.blits.drop dest.blits.length }, r.2) := by
  unfold vulture_put_text at h ⊢
  by_cases hid : font_id ≥ VULTURE_MAX_FONTS
  · rw [if_pos hid] at h ⊢
    cases h
    simp
  · rw [if_neg hid] at h ⊢
    simp only [bind_eq_ok] at h
    obtain ⟨slot, hslot, h⟩ := h
    simp only [hslot, bind, Except.bind]
    cases hp : slot.fontptr with
    | none =>
      rw [hp] at h
      cases h
      simp [pure, Except.pure]
    | some f =>
      rw [hp] at h
      simp only at h ⊢
      by_cases he : str.isEmpty = true
      · rw [if_pos he] at h ⊢
        cases h
        simp [pure, Except.pure]
      · rw [if_neg he] at h ⊢
        split at h
        · rename_i hr
          cases h
          rw [← hf] at hr
          simp [hr, pure, Except.pure]
        · rename_i ts hr
          cases h
          rw [← hf] at hr
          simp [hr, pure, Except.pure]

theorem put_text_ok_of_ok {env : Env} {st : Registry} {font_id : Int} {str : List Char}
    {dest : SDL_Surface} {x y : Int} {color : Nat} {r : SDL_Surface × Bool}
    (h : vulture_put_text env st font_id str dest x y color = .ok r)
    (dest2 : SDL_Surface) (x2 y2 : Int) (color2 : Nat) :
    ∃ r2, vulture_put_text env st font_id str dest2 x2 y2 color2 = .ok r2 := by
  cases hs : slotAt st font_id with
  | ok slot => exact vulture_put_text_ok env hs str dest2 x2 y2 color2
  | error e =>
    by_cases hid : font_id ≥ VULTURE_MAX_FONTS
    · unfold vulture_put_text
      rw [if_pos hid]
      exact ⟨_, rfl⟩
    · unfold vulture_put_text at h
      rw [if_neg hid] at h
      simp only [hs, bind, Except.bind] at h
      cases h

theorem wrapInt32_of_isInt {v : Int} (h : IsInt v) : wrapInt32 v = v := by
  unfold IsInt at h
  unfold wrapInt32
  omega

theorem wrapInt32_congr {a b : Int} (h : a ≡ b [ZMOD 4294967296]) :
    wrapInt32 a = wrapInt32 b := by
  unfold Int.ModEq at h
  unfold wrapInt32
  omega

theorem wrapInt32_modEq (a : Int) : wrapInt32 a ≡ a [ZMOD 4294967296] := by
  unfold Int.ModEq wrapInt32
  omega

/-- The rectangle of a blit holds the position converted to `Sint16`: a draw at
`(40000, -40000)` blits at `(-25536, 25535)`. -/
theorem put_text_rect_conversion_example :
    ∃ r, vulture_put_text demoEnv demoRegistry 0 "ab".toList demoSurface 40000 (-40000) 0
        = .ok r ∧
      r.1.blits.map (fun b => (b.dstrect.x, b.dstrect.y, b.dstrect.w, b.dstrect.h))
        = [(-25536, 25535, 18, 16)] :=
  ⟨_, rfl, rfl⟩

/-- The vertical positions of the lines are computed in `int`: from
`y = 2147483640` with text height 16 the three lines of "ab cd e" are drawn at
`2147483640`, `-2147483640` and `-2147483624`. -/
theorem line_positions_overflow_example :
    ∃ r, vulture_put_text_multiline demoEnv demoRegistry 0 "ab cd e".toList demoSurface
        10 2147483640 0 0x808080 20 = .ok r ∧
      r.2.map (fun c => c.y) = [2147483640, -2147483640, -2147483624] :=
  ⟨_, rfl, rfl⟩

/-- C14: `vulture_put_text_shadow` first draws the text at `(x + 1, y + 1)`,
both sums computed in `int`, in the shadow colour and then, on the surface this
leaves, the same text at `(x, y)` in the text colour.  Its status is the status
of the draw of the text alone, whatever the status of the shadow draw, and it
returns whenever that draw alone returns.  On the blit log the blits of the
shadow draw (none or one) come before those of the draw of the text (none or
one). -/
theorem C14_shadow_then_text (env : Env) (st : Registry) (font_id : Int) (str : List Char)
    (dest : SDL_Surface) (x y : Int) (textcolor shadowcolor : Nat) :
    (∀ r, vulture_put_text_shadow env st font_id str dest x y textcolor shadowcolor = .ok r →
      ∃ rs rp bs bp,
        vulture_put_text env st font_id str dest (intAdd x 1) (intAdd y 1) shadowcolor
          = .ok rs ∧
        vulture_put_text env st font_id str rs.1 x y textcolor = .ok r ∧
        vulture_put_text env st font_id str dest x y textcolor = .ok rp ∧
        r.2 = rp.2 ∧
        rs.1.blits = dest.blits ++ bs ∧ rp.1.blits = dest.blits ++ bp ∧
        r.1.blits = dest.blits ++ bs ++ bp ∧
        bs.length = (if rs.2 then 1 else 0) ∧ bp.length = (if r.2 then 1 else 0)) ∧
    (∀ rp, vulture_put_text env st font_id str dest x y textcolor = .ok rp →
      ∃ r, vulture_put_text_shadow env st font_id str dest x y textcolor shadowcolor = .ok r ∧
        r.2 = rp.2) ∧
    (IsInt (x + 1) → intAdd x 1 = x + 1) ∧
    (IsInt (y + 1) → intAdd y 1 = y + 1) := by
  have key : ∀ r, vulture_put_text_shadow env st font_id str dest x y textcolor shadowcolor
      = .ok r →
      ∃ rs rp bs bp,
        vulture_put_text env st font_id str dest (intAdd x 1) (intAdd y 1) shadowcolor
          = .ok rs ∧
        vulture_put_text env st font_id str rs.1 x y textcolor = .ok r ∧
        vulture_put_text env st font_id str dest x y textcolor = .ok rp ∧
        r.2 = rp.2 ∧
        rs.1.blits = dest.blits ++ bs ∧ rp.1.blits = dest.blits ++ bp ∧
        r.1.blits = dest.blits ++ bs ++ bp ∧
        bs.length = (if rs.2 then 1 else 0) ∧ bp.length = (if r.2 then 1 else 0) := by
    intro r h
    unfold vulture_put_text_shadow at h
    simp only [bind_eq_ok] at h
    obtain ⟨rs, hrs, hr⟩ := h
    have hfmt : dest.format = rs.1.format := by
      rcases put_text_result hrs with h1 | ⟨ts, h1⟩ <;> rw [h1]
      rfl
    have hrp := put_text_transport hfmt hr
    refine ⟨rs, _, rs.1.blits.drop dest.blits.length, r.1.blits.drop rs.1.blits.length,
      hrs, hr, hrp, rfl, ?_, rfl, ?_, ?_, ?_⟩
    · rcases put_text_result hrs with h1 | ⟨ts, h1⟩ <;> rw [h1] <;> simp [blitOnto]
    · rcases put_text_result hrs with h1 | ⟨ts, h1⟩ <;>
        rcases put_text_result hr with h2 | ⟨ts2, h2⟩ <;> rw [h2, h1] <;> simp [blitOnto]
    · rcases put_text_result hrs with h1 | ⟨ts, h1⟩ <;> rw [h1] <;> simp [blitOnto]
    · rcases put_text_result hr with h2 | ⟨ts2, h2⟩ <;> rw [h2] <;> simp [blitOnto]
  refine ⟨key, ?_, fun h => wrapInt32_of_isInt h, fun h => wrapInt32_of_isInt h⟩
  intro rp hrp
  obtain ⟨rs, hrs⟩ := put_text_ok_of_ok hrp dest (intAdd x 1) (intAdd y 1) shadowcolor
  obtain ⟨r, hr⟩ := put_text_ok_of_ok hrp rs.1 x y textcolor
  have hsh : vulture_put_text_shadow env st font_id str dest x y textcolor shadowcolor
      = .ok r := by
    unfold vulture_put_text_shadow
    simp only [hrs, hr, bind, Except.bind]
  obtain ⟨_, rp2, _, _, _, _, hrp2, heq, _⟩ := key r hsh
  rw [hrp] at hrp2
  cases hrp2
  exact ⟨r, hsh, heq⟩

/-- Witness of C14: with a rasterizer that fails on the gray of the shadow, the
shadowed draw still reports the success of the text; with the demo rasterizer
the blit of the shadow comes first. -/
theorem C14_shadow_then_text_witness :
    (∃ r, vulture_put_text_shadow noGrayEnv demoRegistry 0 "ab".toList demoSurface 10 10 0
        0x808080 = .ok r ∧ r.2 = true) ∧
    vulture_put_text noGrayEnv demoRegistry 0 "ab".toList demoSurface 11 11 0x808080
      = .ok (demoSurface, false) ∧
    (∃ r, vulture_put_text_shadow demoEnv demoRegistry 0 "ab".toList demoSurface 10 10 0
        0x808080 = .ok r ∧
        r.1.blits.map (fun b => b.src.color.r) = [128, 0]) :=
  ⟨(C14_shadow_then_text noGrayEnv demoRegistry 0 "ab".toList demoSurface 10 10 0
      0x808080).2.1 _ rfl,
   rfl, ⟨_, rfl, rfl⟩⟩

theorem outerLoop_trace (env : Env) (st : Registry) (font_id : Int) (str : List Char)
    (x y : Int) (color shadowcolor : Nat) (maxlen text_height : Int) :
    ∀ (n sp ep : Nat) (lineno : Int) (dest : SDL_Surface) (calls : List ShadowCall)
      (r : SDL_Surface × List ShadowCall),
      outerLoop env st font_id str x y color shadowcolor maxlen text_height
          n sp ep lineno dest calls = .ok r →
      ∃ ls, r.2 = calls ++ mkCalls font_id x y color shadowcolor text_height lineno ls ∧
        drawCalls env st (mkCalls font_id x y color shadowcolor text_height lineno ls) dest
          = .ok r.1 := by
  intro n
  induction n with
  | zero =>
    intro sp ep lineno dest calls r h
    simp [outerLoop] at h
  | succ n ih =>
    intro sp ep lineno dest calls r h
    unfold outerLoop at h
    simp only [bind_eq_ok] at h
    obtain ⟨b, _, drawn, hdraw, h⟩ := h
    cases hlf : b.2.2.2 with
    | true =>
      rw [hlf] at h
      simp only [if_true, pure, Except.pure] at h
      cases h
      refine ⟨[b.2.2.1], rfl, ?_⟩
      simp only [mkCalls, drawCalls, hdraw, bind, Except.bind]
    | false =>
      rw [hlf] at h
      simp only [Bool.false_eq_true, if_false] at h
      obtain ⟨ls, h1, h2⟩ := ih _ _ _ _ _ _ h
      refine ⟨b.2.2.1 :: ls, ?_, ?_⟩
      · rw [h1]
        simp [mkCalls]
      · simp only [mkCalls, drawCalls, hdraw, bind, Except.bind]
        exact h2

theorem mkCalls_getElem (font_id : Int) (x y : Int) (color shadowcolor : Nat)
    (text_height : Int) :
    ∀ (ls : List (List Char)) (lineno : Int) (n : Nat) (c : ShadowCall),
      (mkCalls font_id x y color shadowcolor text_height lineno ls)[n]? = some c →
      c.font_id = font_id ∧ c.x = x ∧ c.y = wrapInt32 (y + (lineno + n) * text_height) ∧
        c.textcolor = color ∧ c.shadowcolor = shadowcolor ∧ ls[n]? = some c.str := by
  intro ls
  induction ls with
  | nil =>
    intro lineno n c h
    simp [mkCalls] at h
  | cons l ls ih =>
    intro lineno n c h
    cases n with
    | zero =>
      simp only [mkCalls, List.getElem?_cons_zero, Option.some.injEq] at h
      subst h
      refine ⟨rfl, rfl, ?_, rfl, rfl, by simp⟩
      simp only [intAdd, intMul, Nat.cast_zero, add_zero]
      exact wrapInt32_congr ((wrapInt32_modEq _).add_left y)
    | succ n =>
      simp only [mkCalls, List.getElem?_cons_succ] at h
      obtain ⟨h1, h2, h3, h4, h5, h6⟩ := ih (intAdd lineno 1) n c h
      refine ⟨h1, h2, ?_, h4, h5, by simpa using h6⟩
      rw [h3]
      apply wrapInt32_congr
      apply Int.ModEq.add_left
      apply Int.ModEq.mul_right
      have := (wrapInt32_modEq (lineno + 1)).add_right (n : Int)
      simp only [intAdd]
      push_cast
      have e : lineno + ((n : Int) + 1) = lineno + 1 + (n : Int) := by ring
      rw [e]
      exact this

/-- C15: in a run of `vulture_put_text_multiline` that returns, the calls of
`vulture_put_text_shadow` are exactly what was drawn on the surface, and the
call for line number `n` (counted from 0, without gaps) has the font, the
colours and the horizontal position `x` of the run and the vertical position
`y + n * H` computed in `int`, where `H` is `vulture_text_height` of the entire
input text; this is `y + n * H` itself whenever that value is an `int`. -/
theorem C15_line_positions (env : Env) (st : Registry) (font_id : Int)
    (str : List Char) (dest : SDL_Surface) (x y : Int) (color shadowcolor : Nat) (maxlen : Int)
    (r : SDL_Surface × List ShadowCall)
    (hrun : vulture_put_text_multiline env st font_id str dest x y color shadowcolor maxlen
      = .ok r) :
    ∃ H, vulture_text_height env st font_id str = .ok H ∧
      (∀ (n : Nat) (c : ShadowCall), r.2[n]? = some c →
        c.font_id = font_id ∧ c.x = x ∧ c.y = wrapInt32 (y + n * H) ∧
          (IsInt (y + n * H) → c.y = y + n * H) ∧
          c.textcolor = color ∧ c.shadowcolor = shadowcolor) ∧
      drawCalls env st r.2 dest = .ok r.1 := by
  unfold vulture_put_text_multiline at hrun
  simp only [bind_eq_ok] at hrun
  obtain ⟨H, hH, hloop⟩ := hrun
  obtain ⟨ls, h1, h2⟩ :=
    outerLoop_trace env st font_id str x y color shadowcolor maxlen H _ _ _ _ _ _ _ hloop
  rw [List.nil_append] at h1
  refine ⟨H, hH, ?_, by rw [h1]; exact h2⟩
  intro n c hc
  rw [h1] at hc
  obtain ⟨c1, c2, c3, c4, c5, _⟩ :=
    mkCalls_getElem font_id x y color shadowcolor H ls 0 n c hc
  have hy : c.y = wrapInt32 (y + n * H) := by
    rw [c3]
    simp
  refine ⟨c1, c2, hy, ?_, c4, c5⟩
  intro hr
  rw [hy, wrapInt32_of_isInt hr]

/-- Witness of C15 on "ab cd e" with budget 20 and text height 16: three lines
at the vertical positions 10, 26 and 42. -/
theorem C15_line_positions_witness :
    ∃ r, vulture_put_text_multiline demoEnv demoRegistry 0 "ab cd e".toList demoSurface
        10 10 0 0x808080 20 = .ok r ∧
      r.2.map (fun c => (c.x, c.y)) = [(10, 10), (10, 26), (10, 42)] ∧
      linesOf (vulture_put_text_multiline demoEnv demoRegistry 0 "ab cd e".toList demoSurface
        10 10 0 0x808080 20) = some ["ab".toList, "cd".toList, "e".toList] ∧
      ∃ H, vulture_text_height demoEnv demoRegistry 0 "ab cd e".toList = .ok H ∧
        (∀ (n : Nat) (c : ShadowCall), r.2[n]? = some c →
          c.font_id = 0 ∧ c.x = 10 ∧ c.y = wrapInt32 (10 + n * H) ∧
            (IsInt (10 + n * H) → c.y = 10 + n * H) ∧
            c.textcolor = 0 ∧ c.shadowcolor = 0x808080) ∧
        drawCalls demoEnv demoRegistry r.2 demoSurface = .ok r.1 :=
  ⟨_, rfl, rfl, by decide, C15_line_positions demoEnv demoRegistry 0 "ab cd e".toList
    demoSurface 10 10 0 0x808080 20 _ rfl⟩

/-! ## The registry invariant -/

theorem afterInit_inv (st : Registry)
    (h : st.wasInit = true ↔ st.vulture_fonts.isSome = true) :
    (afterInit st).wasInit = true ↔ (afterInit st).vulture_fonts.isSome = true := by
  unfold afterInit
  by_cases hw : (!st.wasInit) = true
  · rw [if_pos hw]
    cases st.vulture_fonts <;> simp
  · rw [if_neg hw]
    exact h

theorem load_true_some {env : Env} {st st1 : Registry} {font_id : Int} {initOk : Bool}
    {newfont : Option TTF_Font}
    (h : vulture_load_font env st font_id initOk newfont = .ok (st1, true)) :
    ∃ f, newfont = some f := by
  cases newfont with
  | some f => exact ⟨f, rfl⟩
  | none =>
    unfold vulture_load_font at h
    by_cases c1 : (!st.wasInit && !initOk) = true
    · rw [if_pos c1] at h; cases h
    · rw [if_neg c1] at h
      simp only at h
      by_cases c2 : font_id ≥ VULTURE_MAX_FONTS
      · rw [if_pos c2] at h; cases h
      · rw [if_neg c2] at h; cases h

theorem callocFonts_getD (j : Nat) :
    callocFonts.getD j { fontptr := none, lineheight := 0 }
      = { fontptr := none, lineheight := 0 } := by
  simp only [callocFonts]
  rcases j with _ | _ | j <;> rfl

theorem free_fonts_state {st st1 : Registry} (h : vulture_free_fonts st = .ok st1) :
    st1.wasInit = false ∧ st1.vulture_fonts = none := by
  unfold vulture_free_fonts at h
  simp only [bind_eq_ok] at h
  obtain ⟨st2, _, h⟩ := h
  cases h
  exact ⟨rfl, rfl⟩

/-- C16: in every registry state reachable from the initial state by calls of
`vulture_load_font` and `vulture_free_fonts` that return, with any outcome of
the library initialisation and of the opening of the font, the slot table is
allocated if and only if the library is initialised.  After a shutdown both are
absent, and a load that follows it with a successful library initialisation
makes both present again, every slot other than a loaded one being empty. -/
theorem C16_registry_invariant (env : Env) :
    (∀ st, Reachable env st → (st.wasInit = true ↔ st.vulture_fonts.isSome = true)) ∧
    (∀ st st1, vulture_free_fonts st = .ok st1 →
      st1.wasInit = false ∧ st1.vulture_fonts = none) ∧
    (∀ st st1 st2 font_id newfont b, vulture_free_fonts st = .ok st1 →
      vulture_load_font env st1 font_id true newfont = .ok (st2, b) →
      st2.wasInit = true ∧ st2.vulture_fonts.isSome = true ∧
      ∀ j : Nat, (b = false ∨ j ≠ font_id.toNat) →
        slotView st2 j = { fontptr := none, lineheight := 0 }) := by
  refine ⟨?_, fun st st1 h => free_fonts_state h, ?_⟩
  · intro st hreach
    induction hreach with
    | init => simp [Registry.initial]
    | load st st1 font_id initOk newfont b _ hload ih =>
      cases b with
      | false =>
        rcases load_failure_state hload with ⟨_, h2⟩ | ⟨_, h2⟩
        · rw [h2]; exact ih
        · rw [h2]; exact afterInit_inv st ih
      | true =>
        obtain ⟨f, rfl⟩ := load_true_some hload
        obtain ⟨table, ht, _, _, _, hfonts, hw, _⟩ := load_success_state hload
        have hinit := (afterInit_inv st ih).mpr (by rw [ht]; rfl)
        rw [hw, hfonts]
        simp [hinit]
    | free st st1 _ hfree _ =>
      obtain ⟨h1, h2⟩ := free_fonts_state hfree
      simp [h1, h2]
  · intro st st1 st2 font_id newfont b hfree hload
    obtain ⟨h1, h2⟩ := free_fonts_state hfree
    have hafter : afterInit st1
        = { st1 with wasInit := true, vulture_fonts := some callocFonts } := by
      unfold afterInit
      simp [h1, h2]
    cases b with
    | false =>
      rcases load_failure_state hload with ⟨⟨_, h3⟩, _⟩ | ⟨_, h3⟩
      · cases h3
      · rw [h3, hafter]
        refine ⟨rfl, rfl, ?_⟩
        intro j _
        exact callocFonts_getD j
    | true =>
      obtain ⟨f, rfl⟩ := load_true_some hload
      obtain ⟨table, ht, _, _, _, hfonts, hw, _⟩ := load_success_state hload
      rw [hafter] at ht hw
      have htable : table = callocFonts := (Option.some.inj ht).symm
      subst htable
      refine ⟨hw, by rw [hfonts]; rfl, ?_⟩
      intro j hj
      rcases hj with hj | hj
      · cases hj
      · rw [slotView_of_table hfonts]
        simp only [List.getD_eq_getElem?_getD]
        rw [List.getElem?_set_ne (Ne.symm hj)]
        have := callocFonts_getD j
        simpa [List.getD_eq_getElem?_getD] using this

/-- Witness of C16: the demo registry is the initial state after a load into
slot 0; a shutdown and a load into slot 1 follow. -/
theorem C16_registry_invariant_witness :
    (demoRegistry.wasInit = true ↔ demoRegistry.vulture_fonts.isSome = true) ∧
    (∃ st2, vulture_free_fonts demoRegistry = .ok st2 ∧
      st2.wasInit = false ∧ st2.vulture_fonts = none) ∧
    (∃ st2 st3, vulture_free_fonts demoRegistry = .ok st2 ∧
      vulture_load_font demoEnv st2 1 true (some { handle := 2 }) = .ok (st3, true) ∧
      st3.wasInit = true ∧ st3.vulture_fonts.isSome = true ∧
      ∀ j : Nat, (true = false ∨ j ≠ (1 : Int).toNat) →
        slotView st3 j = { fontptr := none, lineheight := 0 }) :=
  ⟨(C16_registry_invariant demoEnv).1 demoRegistry
      (Reachable.load Registry.initial demoRegistry 0 true (some { handle := 1 }) true
        Reachable.init rfl),
   ⟨{ wasInit := false, vulture_fonts := none, closed := [{ handle := 1 }] }, rfl,
     (C16_registry_invariant demoEnv).2.1 demoRegistry _ rfl⟩,
   ⟨{ wasInit := false, vulture_fonts := none, closed := [{ handle := 1 }] },
     { wasInit := true
       vulture_fonts := some [{ fontptr := none, lineheight := 0 },
                              { fontptr := some { handle := 2 }, lineheight := 14 }]
       closed := [{ handle := 1 }] }, rfl, rfl,
     (C16_registry_invariant demoEnv).2.2 demoRegistry _ _ 1 (some { handle := 2 }) true
       rfl rfl⟩⟩

/-! ## The greedy choice of a line -/

theorem cutBefore_cases {C T P : List Char} {c : Char} {rest : List Char}
    (hC : C = T ++ c :: rest) (hrest : ∀ x ∈ rest, isDelim x = false)
    (hP : CutBefore P C) : P = T ∨ CutBefore P T := by
  obtain ⟨d, rest2, hP, hd⟩ := hP
  rw [hC] at hP
  rcases List.append_eq_append_iff.mp hP with ⟨a, h1, h2⟩ | ⟨a, h1, h2⟩
  · cases a with
    | nil => left; simpa using h1
    | cons a0 a1 =>
      exfalso
      simp only [List.cons_append, List.cons.injEq] at h2
      have hmem : d ∈ rest := by rw [h2.2]; simp
      have := hrest d hmem
      rw [hd] at this
      cases this
  · cases a with
    | nil => left; simpa using h1.symm
    | cons a0 a1 =>
      right
      simp only [List.cons_append, List.cons.injEq] at h2
      exact ⟨a0, a1, h1, by rw [← h2.1]; exact hd⟩

theorem cutBefore_trans {P T C : List Char} {c : Char} {rest : List Char}
    (hC : C = T ++ c :: rest) (hP : CutBefore P T) : CutBefore P C := by
  obtain ⟨d, rest2, hT, hd⟩ := hP
  exact ⟨d, rest2 ++ c :: rest, by rw [hC, hT]; simp, hd⟩

theorem cutBefore_length_lt {P T : List Char} (hP : CutBefore P T) : P.length < T.length := by
  obtain ⟨d, rest2, hT, _⟩ := hP
  rw [hT]
  simp

theorem takeWhile_nodelim {C : List Char} (hC : ∀ x ∈ C, isDelim x = false) :
    C.takeWhile (fun c => !isDelim c) = C := by
  induction C with
  | nil => rfl
  | cons a as ih =>
    have ha := hC a (List.mem_cons_self _ _)
    simp only [List.takeWhile_cons, ha, Bool.not_false, if_true]
    rw [ih (fun x hx => hC x (List.mem_cons_of_mem _ hx))]

theorem takeWhile_cutBefore {C R : List Char} (hC : ∀ x ∈ C, isDelim x = false)
    (hR : CutBefore C R) : R.takeWhile (fun c => !isDelim c) = C := by
  obtain ⟨d, rest, hR, hd⟩ := hR
  subst hR
  induction C with
  | nil => simp [List.takeWhile_cons, hd]
  | cons a as ih =>
    have ha := hC a (List.mem_cons_self _ _)
    simp only [List.cons_append, List.takeWhile_cons, ha, Bool.not_false, if_true]
    rw [ih (fun x hx => hC x (List.mem_cons_of_mem _ hx))]

theorem innerLoop_greedy (env : Env) {st : Registry} {font_id : Int} {slot : vulture_font}
    (hslot : slotAt st font_id = .ok slot) (maxlen : Int) :
    ∀ (n : Nat) (C : List Char) (e : Nat) (lf : Bool), C.length < n → C.length < npos →
      ∃ C1 e1 lf1,
        innerLoop env st font_id maxlen n C e lf (text_length_of env slot C) = .ok (C1, e1, lf1) ∧
        ((text_length_of env slot C ≤ maxlen ∧ C1 = C) ∨
         (maxlen < text_length_of env slot C ∧ text_length_of env slot C1 ≤ maxlen ∧
           CutBefore C1 C ∧
           ∀ P, CutBefore P C → text_length_of env slot P ≤ maxlen → P.length ≤ C1.length) ∨
         (maxlen < text_length_of env slot C ∧ maxlen < text_length_of env slot C1 ∧
           (∀ x ∈ C1, isDelim x = false) ∧ (C1 = C ∨ CutBefore C1 C) ∧
           ∀ P, CutBefore P C → maxlen < text_length_of env slot P)) := by
  intro n
  induction n with
  | zero => intro C e lf h; omega
  | succ n ih =>
    intro C e lf hn hnpos
    unfold innerLoop
    by_cases hgt : text_length_of env slot C > maxlen
    · rw [if_pos hgt]
      cases hl : lastDelim C with
      | none =>
        have hf : find_last_of C = npos := by simp only [find_last_of, hl]
        have hno := lastDelim_none.mp hl
        simp only [hf, if_true]
        refine ⟨C, lengthMinusOne C, true, rfl, Or.inr (Or.inr ⟨hgt, hgt, hno, Or.inl rfl, ?_⟩)⟩
        rintro P ⟨d, rest, hP, hd⟩
        have := hno d (by rw [hP]; simp)
        rw [hd] at this
        cases this
      | some p =>
        obtain ⟨hp, c, rest, hC, hc, hrest⟩ := lastDelim_some hl
        have hf : find_last_of C = p := by simp only [find_last_of, hl]
        have hne : ¬ (p = npos) := by omega
        have hmod : (p + 1) % SIZE_MOD = p + 1 := by
          apply Nat.mod_eq_of_lt
          unfold npos at hnpos
          omega
        have htake : (C.take p).length = p := by
          rw [List.length_take]; omega
        have hcut : CutBefore (C.take p) C := ⟨c, rest, hC, hc⟩
        simp only [hf, hne, if_false, hmod, vulture_text_length_ok hslot, bind, Except.bind]
        obtain ⟨C1, e1, lf1, hrun, hpost⟩ :=
          ih (C.take p) (p + 1) false (by omega) (by omega)
        refine ⟨C1, e1, lf1, hrun, ?_⟩
        rcases hpost with ⟨h1, h2⟩ | ⟨h1, h2, h3, h4⟩ | ⟨h1, h2, h3, h4, h5⟩
        · subst h2
          refine Or.inr (Or.inl ⟨hgt, h1, hcut, ?_⟩)
          intro P hP _
          rcases cutBefore_cases hC hrest hP with hPT | hPT
          · rw [hPT]
          · exact Nat.le_of_lt (cutBefore_length_lt hPT)
        · refine Or.inr (Or.inl ⟨hgt, h2, cutBefore_trans hC h3, ?_⟩)
          intro P hP hfit
          rcases cutBefore_cases hC hrest hP with hPT | hPT
          · rw [hPT] at hfit; omega
          · exact h4 P hPT hfit
        · refine Or.inr (Or.inr ⟨hgt, h2, h3, Or.inr ?_, ?_⟩)
          · rcases h4 with h4 | h4
            · rw [h4]; exact hcut
            · exact cutBefore_trans hC h4
          · intro P hP
            rcases cutBefore_cases hC hrest hP with hPT | hPT
            · rw [hPT]; exact h1
            · exact h5 P hPT
    · rw [if_neg hgt]
      exact ⟨C, e, lf, rfl, Or.inl ⟨by omega, rfl⟩⟩

theorem fits_eq_false_iff {env : Env} {st : Registry} {font_id : Int} {slot : vulture_font}
    (hslot : slotAt st font_id = .ok slot) (maxlen : Int) (s : List Char) :
    fits env st font_id maxlen s = false ↔ maxlen < text_length_of env slot s := by
  have := @fits_iff env st font_id slot hslot maxlen s
  constructor
  · intro h
    by_contra hc
    have h2 := this.mpr (by omega)
    rw [h] at h2
    cases h2
  · intro h
    cases hf : fits env st font_id maxlen s with
    | false => rfl
    | true =>
      have := this.mp hf
      omega

/-- C17: in a turn of the outer loop of `vulture_put_text_multiline` whose
cursor lies within the text, with remaining text `R`, the line handed to the
draw is chosen greedily, for any measure: it is `R` when `R` measures at most
`maxlen`; otherwise it is the longest cut of `R` immediately before a separator
that measures at most `maxlen`, when there is such a cut; and otherwise it is
`R` up to its first separator, the leading token that cannot be split. -/
theorem C17_greedy_line (env : Env) (st : Registry) (font_id : Int) (slot : vulture_font)
    (str : List Char) (maxlen : Int) (sp ep : Nat)
    (hslot : slotAt st font_id = .ok slot) (hlen : str.length < npos)
    (hcur : sp + ep ≤ str.length) :
    ∃ e1 C1 lf1,
      loopBody env st font_id str maxlen sp ep = .ok (sp + ep, e1, C1, lf1) ∧
      Greedy (fits env st font_id maxlen) (str.drop (sp + ep)) C1 := by
  have hmod : (sp + ep) % SIZE_MOD = sp + ep := by
    apply Nat.mod_eq_of_lt
    unfold npos at hlen
    omega
  have hnot : ¬ (sp + ep > str.length) := by omega
  have hdrop : (str.drop (sp + ep)).length < npos := by
    rw [List.length_drop]; omega
  obtain ⟨C1, e1, lf1, hrun, hpost⟩ :=
    innerLoop_greedy env hslot maxlen ((str.drop (sp + ep)).length + 1)
      (str.drop (sp + ep)) (lengthMinusOne (str.drop (sp + ep))) true (by omega) hdrop
  refine ⟨e1, C1, lf1, ?_, ?_⟩
  · unfold loopBody
    simp only [hmod, hnot, if_false, vulture_text_length_ok hslot, bind, Except.bind, hrun,
      pure, Except.pure]
  · rcases hpost with ⟨h1, h2⟩ | ⟨h1, h2, h3, h4⟩ | ⟨h1, _, h3, h4, h5⟩
    · exact Or.inl ⟨(fits_iff hslot maxlen _).mpr h1, h2⟩
    · refine Or.inr (Or.inl ⟨(fits_eq_false_iff hslot maxlen _).mpr h1,
        (fits_iff hslot maxlen _).mpr h2, h3, ?_⟩)
      intro P hP hfit
      exact h4 P hP ((fits_iff hslot maxlen _).mp hfit)
    · refine Or.inr (Or.inr ⟨(fits_eq_false_iff hslot maxlen _).mpr h1, ?_, ?_⟩)
      · intro P hP
        exact (fits_eq_false_iff hslot maxlen _).mpr (h5 P hP)
      · rcases h4 with h4 | h4
        · rw [h4, takeWhile_nodelim (by rw [← h4]; exact h3)]
        · exact (takeWhile_cutBefore h3 h4).symm

/-- Witness of C17: the first turn on "ab cd e" with budget 20, where "ab"
is the longest cut that fits. -/
theorem C17_greedy_line_witness :
    ∃ e1 C1 lf1,
      loopBody demoEnv demoRegistry 0 "ab cd e".toList 20 0 0 = .ok (0 + 0, e1, C1, lf1) ∧
      Greedy (fits demoEnv demoRegistry 0 20) ("ab cd e".toList.drop (0 + 0)) C1 :=
  C17_greedy_line demoEnv demoRegistry 0 { fontptr := some { handle := 1 }, lineheight := 14 }
    "ab cd e".toList 20 0 0 rfl (by decide) (by decide)

/-! ## The empty text, the cursor and the number of lines -/

theorem put_text_nil (env : Env) {st : Registry} {font_id : Int} {slot : vulture_font}
    (hslot : slotAt st font_id = .ok slot) (dest : SDL_Surface) (x y : Int) (color : Nat) :
    vulture_put_text env st font_id [] dest x y color = .ok (dest, false) := by
  unfold vulture_put_text
  by_cases hid : font_id ≥ VULTURE_MAX_FONTS
  · rw [if_pos hid]
  · rw [if_neg hid]
    simp only [hslot, bind, Except.bind]
    cases slot.fontptr <;> rfl

theorem put_text_shadow_nil (env : Env) {st : Registry} {font_id : Int} {slot : vulture_font}
    (hslot : slotAt st font_id = .ok slot) (dest : SDL_Surface) (x y : Int)
    (textcolor shadowcolor : Nat) :
    vulture_put_text_shadow env st font_id [] dest x y textcolor shadowcolor
      = .ok (dest, false) := by
  unfold vulture_put_text_shadow
  simp only [put_text_nil env hslot, bind, Except.bind]

theorem Wrapped_nil {L : List Char → Int} {maxlen : Int} {ls : List (List Char)}
    (h : Wrapped L maxlen [] ls) : ls = [[]] := by
  cases h with
  | whole _ _ => rfl
  | stuck _ C _ _ _ h4 =>
    rcases h4 with h4 | ⟨c, rest, h4, _⟩
    · rw [h4]
    · cases C <;> simp at h4
  | split _ C c rest ls _ _ h3 _ _ =>
    cases C <;> simp at h3

/-- C18 as stated fails: `vulture_put_text_multiline` begins with
`vulture_text_height`, which reads the slot before it looks at the text.  With
the table never allocated, or with the slot id 5 of a table of two slots, the
run on the empty text ends in that read and no draw is attempted. -/
theorem C18_counterexample_unreadable_slot :
    vulture_put_text_multiline demoEnv Registry.initial 0 [] demoSurface 10 10 0 0x808080 40
      = .error .nullDeref ∧
    vulture_put_text_multiline demoEnv demoRegistry 5 [] demoSurface 10 10 0 0x808080 40
      = .error .outOfBounds :=
  ⟨rfl, rfl⟩

/-- C18 (amended): in a registry whose slot table is allocated, for a slot id
in `[0, VULTURE_MAX_FONTS)`, whether the slot holds a font or not, for the
empty text and every budget, `vulture_put_text_multiline` makes exactly one
call of `vulture_put_text_shadow`, with the empty text at line number 0, whose
vertical position is the `int` value of `y`, and the surface is left as it was,
because `vulture_put_text` returns `FALSE` on the empty text.  The `size_t`
value of `length - 1` on the empty candidate is `npos`, and no further turn
follows. -/
theorem C18_empty_text (env : Env) (st : Registry) (font_id : Int)
    (table : List vulture_font) (dest : SDL_Surface) (x y : Int) (color shadowcolor : Nat)
    (maxlen : Int) (ht : st.vulture_fonts = some table)
    (htl : (table.length : Int) = VULTURE_MAX_FONTS)
    (h0 : 0 ≤ font_id) (h1 : font_id < VULTURE_MAX_FONTS) :
    vulture_put_text_multiline env st font_id [] dest x y color shadowcolor maxlen
      = .ok (dest, [{ font_id := font_id, str := [], x := x, y := wrapInt32 y,
                      textcolor := color, shadowcolor := shadowcolor }]) ∧
    (IsInt y → wrapInt32 y = y) ∧
    vulture_put_text_shadow env st font_id [] dest x (wrapInt32 y) color shadowcolor
      = .ok (dest, false) ∧
    vulture_put_text env st font_id [] dest x (wrapInt32 y) color = .ok (dest, false) ∧
    lengthMinusOne [] = npos := by
  have hslot := slotAt_of_table ht h0 (by omega : font_id < table.length)
  refine ⟨?_, fun h => wrapInt32_of_isInt h,
    put_text_shadow_nil env hslot dest x (wrapInt32 y) color shadowcolor,
    put_text_nil env hslot dest x (wrapInt32 y) color, by decide⟩
  obtain ⟨dest1, ls, hrun, hw⟩ :=
    multiline_spec env hslot [] (by decide) dest x y color shadowcolor maxlen
  have hls := Wrapped_nil hw
  subst hls
  have hy : ∀ H : Int, intAdd y (intMul 0 H) = wrapInt32 y := by
    intro H
    simp only [intAdd, intMul, zero_mul]
    exact wrapInt32_congr (by
      have := (wrapInt32_modEq 0).add_left y
      simpa using this)
  have hrun2 := hrun
  unfold vulture_put_text_multiline at hrun2
  simp only [bind_eq_ok] at hrun2
  obtain ⟨H, _, hloop⟩ := hrun2
  obtain ⟨ls2, h1, h2⟩ :=
    outerLoop_trace env st font_id [] x y color shadowcolor maxlen H _ _ _ _ _ _ _ hloop
  simp only [h1, List.nil_append] at h2
  have hmap := congrArg (fun cs => cs.map (fun c => c.str)) h1
  simp only [List.nil_append, mkCalls_map_str] at hmap
  subst hmap
  simp only [mkCalls, drawCalls, put_text_shadow_nil env hslot, bind, Except.bind,
    Except.ok.injEq] at h2
  rw [hrun]
  simp [mkCalls, h2, hy]

/-- Witness of C18: the empty text through the loaded slot 0 with the negative
budget -3. -/
theorem C18_empty_text_witness :
    vulture_put_text_multiline demoEnv demoRegistry 0 [] demoSurface 10 10 0 0x808080 (-3)
      = .ok (demoSurface, [{ font_id := 0, str := [], x := 10, y := 10,
                             textcolor := 0, shadowcolor := 0x808080 }]) :=
  (C18_empty_text demoEnv demoRegistry 0 _ demoSurface 10 10 0 0x808080 (-3) rfl
    (by decide) (by decide) (by decide)).1

theorem slotAt_ne_outOfRange (st : Registry) (font_id : Int) :
    slotAt st font_id ≠ .error .outOfRange := by
  unfold slotAt
  cases st.vulture_fonts with
  | none => simp
  | some table =>
    simp only
    split
    · split <;> simp
    · simp

theorem loopBody_slot_error (env : Env) {st : Registry} {font_id : Int} {e : Fault}
    (hs : slotAt st font_id = .error e) (str : List Char) (maxlen : Int) (sp ep : Nat)
    (hmod : (sp + ep) % SIZE_MOD ≤ str.length) :
    loopBody env st font_id str maxlen sp ep = .error e := by
  unfold loopBody vulture_text_length
  simp only [hs, bind, Except.bind]
  rw [if_neg (by omega)]

theorem loopBody_continue (env : Env) (st : Registry) (font_id : Int) (str : List Char)
    (maxlen : Int) (hlen : str.length < npos) (sp ep sp1 e1 : Nat) (C1 : List Char)
    (hcur : sp + ep ≤ str.length)
    (hbody : loopBody env st font_id str maxlen sp ep = .ok (sp1, e1, C1, false)) :
    sp1 = sp + ep ∧ e1 = C1.length + 1 ∧ sp1 + e1 ≤ str.length ∧
      ∃ c rest, str.drop sp1 = C1 ++ c :: rest ∧ isDelim c = true := by
  cases hs : slotAt st font_id with
  | error e =>
    obtain ⟨e2, he2⟩ := loopBody_error_of_slot env hs str maxlen sp ep
    rw [he2] at hbody
    cases hbody
  | ok slot =>
    obtain ⟨C2, e2, lf2, hb, hpost⟩ := loopBody_spec env hs maxlen str hlen sp ep hcur
    rw [hb] at hbody
    cases hbody
    rcases hpost with ⟨_, _, _, h4⟩ | ⟨_, _, _, h4, c, rest, h5, h6⟩ | ⟨_, _, h3, _⟩
    · cases h4
    · have hlenR : (str.drop (sp + ep)).length = C1.length + 1 + rest.length := by
        rw [h5]; simp; omega
      rw [List.length_drop] at hlenR
      exact ⟨rfl, h4, by omega, c, rest, h5, h6⟩
    · cases h3

theorem Cursor_le (env : Env) (st : Registry) (font_id : Int) (str : List Char)
    (maxlen : Int) (hlen : str.length < npos) (sp ep : Nat)
    (h : Cursor env st font_id str maxlen sp ep) : sp + ep ≤ str.length := by
  induction h with
  | start => omega
  | next sp ep sp1 e1 C1 _ hbody ih =>
    exact (loopBody_continue env st font_id str maxlen hlen sp ep sp1 e1 C1 ih hbody).2.2.1

/-- C19: at the start of every turn of the outer loop of
`vulture_put_text_multiline` the cursor `startpos + endpos` is at most the
length of the text, so the turn does not raise `std::out_of_range` in `substr`
and neither does the run; and the line a turn hands to the draw is a leading
part of the text from that cursor on. -/
theorem C19_cursor_in_range (env : Env) (st : Registry) (font_id : Int)
    (str : List Char) (dest : SDL_Surface) (x y : Int) (color shadowcolor : Nat) (maxlen : Int)
    (hlen : str.length < npos) :
    (∀ sp ep, Cursor env st font_id str maxlen sp ep →
      sp + ep ≤ str.length ∧
      loopBody env st font_id str maxlen sp ep ≠ .error .outOfRange ∧
      ∀ sp1 e1 C1 lf, loopBody env st font_id str maxlen sp ep = .ok (sp1, e1, C1, lf) →
        sp1 = sp + ep ∧ ∃ t, str.drop (sp + ep) = C1 ++ t) ∧
    vulture_put_text_multiline env st font_id str dest x y color shadowcolor maxlen
      ≠ .error .outOfRange := by
  refine ⟨?_, ?_⟩
  · intro sp ep hc
    have hcur := Cursor_le env st font_id str maxlen hlen sp ep hc
    have hmod : (sp + ep) % SIZE_MOD = sp + ep := by
      apply Nat.mod_eq_of_lt
      unfold npos at hlen
      omega
    refine ⟨hcur, ?_, ?_⟩
    · cases hs : slotAt st font_id with
      | error e =>
        rw [loopBody_slot_error env hs str maxlen sp ep (by omega)]
        intro h
        cases h
        exact slotAt_ne_outOfRange st font_id hs
      | ok slot =>
        obtain ⟨C2, e2, lf2, hb, _⟩ := loopBody_spec env hs maxlen str hlen sp ep hcur
        rw [hb]
        simp
    · intro sp1 e1 C1 lf hbody
      cases hs : slotAt st font_id with
      | error e =>
        rw [loopBody_slot_error env hs str maxlen sp ep (by omega)] at hbody
        cases hbody
      | ok slot =>
        obtain ⟨C2, e2, lf2, hb, hpost⟩ := loopBody_spec env hs maxlen str hlen sp ep hcur
        rw [hb] at hbody
        cases hbody
        refine ⟨rfl, ?_⟩
        rcases hpost with ⟨_, h2, _⟩ | ⟨_, _, _, _, c, rest, h5, _⟩ |
          ⟨_, _, _, _, _, h6⟩
        · exact ⟨[], by rw [h2]; simp⟩
        · exact ⟨c :: rest, h5⟩
        · rcases h6 with h6 | ⟨c, rest, h6, _⟩
          · exact ⟨[], by rw [h6]; simp⟩
          · exact ⟨c :: rest, h6⟩
  · cases hs : slotAt st font_id with
    | error e =>
      unfold vulture_put_text_multiline vulture_text_height
      simp only [hs, bind, Except.bind]
      intro h
      cases h
      exact slotAt_ne_outOfRange st font_id hs
    | ok slot =>
      obtain ⟨dest1, ls, hrun, _⟩ :=
        multiline_spec env hs str hlen dest x y color shadowcolor maxlen
      rw [hrun]
      simp

/-- Witness of C19: the second turn on "ab cd e" with budget 20 starts with
`startpos = 0` and `endpos = 3`. -/
theorem C19_cursor_in_range_witness :
    0 + 3 ≤ "ab cd e".toList.length ∧
    loopBody demoEnv demoRegistry 0 "ab cd e".toList 20 0 3 ≠ .error .outOfRange :=
  have h := (C19_cursor_in_range demoEnv demoRegistry 0 "ab cd e".toList demoSurface 10 10 0
    0x808080 20 (by decide)).1 0 3
    (Cursor.next 0 0 0 3 "ab".toList Cursor.start rfl)
  ⟨h.1, h.2.1⟩

/-- C20: the number of lines drawn by `vulture_put_text_multiline` is at most
`W + 1`, where `W` is the number of separators (space, tab, newline) of the
text: a turn of the outer loop that does not end the loop moves the cursor
`startpos + endpos` strictly forward, to just behind a separator of the text,
so the separators consumed by successive turns lie at strictly increasing
positions. -/
theorem C20_lines_le_separators (env : Env) (st : Registry) (font_id : Int)
    (str : List Char) (dest : SDL_Surface) (x y : Int) (color shadowcolor : Nat) (maxlen : Int)
    (hlen : str.length < npos) :
    (∀ r, vulture_put_text_multiline env st font_id str dest x y color shadowcolor maxlen
        = .ok r → r.2.length ≤ countDelims str + 1) ∧
    (∀ sp ep sp1 e1 C1, sp + ep ≤ str.length →
      loopBody env st font_id str maxlen sp ep = .ok (sp1, e1, C1, false) →
      sp + ep < sp1 + e1 ∧ sp1 + e1 ≤ str.length ∧
      ∃ c, str[sp1 + e1 - 1]? = some c ∧ isDelim c = true) := by
  refine ⟨?_, ?_⟩
  · intro r hrun
    obtain ⟨slot, _, hw⟩ := multiline_lines hlen hrun
    have h1 := Wrapped_length_le hw
    simpa using h1
  · intro sp ep sp1 e1 C1 hcur hbody
    obtain ⟨h1, h2, h3, c, rest, h4, h5⟩ :=
      loopBody_continue env st font_id str maxlen hlen sp ep sp1 e1 C1 hcur hbody
    refine ⟨by omega, h3, c, ?_, h5⟩
    have hsplit : str = str.take sp1 ++ (C1 ++ c :: rest) := by
      rw [← h4, List.take_append_drop]
    have hidx : sp1 + e1 - 1 = (str.take sp1 ++ C1).length := by
      rw [List.length_append, List.length_take]
      omega
    have hget : (str.take sp1 ++ C1 ++ c :: rest)[(str.take sp1 ++ C1).length]? = some c := by
      rw [List.getElem?_append_right (le_refl _)]
      simp
    have hstr : str = str.take sp1 ++ C1 ++ c :: rest := by
      rw [List.append_assoc]
      exact hsplit
    rw [hidx]
    rw [← hstr] at hget
    exact hget

/-- Witness of C20 on "ab cd e" with budget 20: three lines, two separators. -/
theorem C20_lines_le_separators_witness :
    ∃ r, vulture_put_text_multiline demoEnv demoRegistry 0 "ab cd e".toList demoSurface
        10 10 0 0x808080 20 = .ok r ∧
      r.2.length ≤ countDelims "ab cd e".toList + 1 :=
  ⟨_, rfl, (C20_lines_le_separators demoEnv demoRegistry 0 "ab cd e".toList demoSurface
    10 10 0 0x808080 20 (by decide)).1 _ rfl⟩

end Vulture
